import Mathlib

/-!
Verification development for the Pearl interpreter (a tree-walking
interpreter for a small scripting language, written in Go).

The Go repository provides the `token` package, the Pratt parser
(`parser` package), and the evaluator together with its builtin-function
registry (`evaluator` package).  The `ast`, `object` and `lexer`
packages are not part of the provided sources; where a definition below
renders one of those, or a Go standard-library function, its doc comment
says so explicitly (`Modelled from the spec: ...`).  Everything else is
a direct shallow embedding of the Go sources.

Modelling conventions:
  - Go `int64` values are `Int`s; arithmetic that can overflow is
    wrapped through `wrap64` (two's-complement wrap-around), mirroring
    Go's unchecked 64-bit semantics.
  - Go strings are byte strings; they are modelled at character
    granularity (`String`/`List Char`), which coincides with the byte
    view on the ASCII data exercised here.
  - `object.Environment` values are mutable and shared (closures), so
    environments live in an explicit store (`EnvStore`) and are passed
    around as indices (`Nat`).  Array and Map objects are modelled as
    immutable Lean values: no claim below exercises aliasing of
    collections, only environment mutation.
  - Go's `nil` `object.Object` interface value is the explicit
    constructor `Obj.goNil`.
  - evaluation functions take a fuel argument (`Nat`) and return `none`
    when the fuel runs out, so that non-termination of the interpreted
    program is representable.
-/

set_option autoImplicit false

mutual

/-- AST statement and expression nodes, as produced by the parser.
Modelled from the spec: the `ast` package itself is not in the provided
sources; the node set and its fields follow spec section 3 and the
constructor calls in the parser and evaluator sources
(`ast.Identifier{...}`, `ast.PipeExpression{...}`, etc.).  `BlockStatement`
bodies appear as `List Stmt` fields, and a failed sub-parse (Go `nil`
expression) is the explicit constructor `nilE`. -/
inductive Expr where
  | identE (value : String)
  | intLit (value : Int)
  | floatLit (value : Float)
  | stringLit (value : String) (parts : List StringPart)
  | boolLit (value : Bool)
  | nullLit
  | regexLit (pattern : String)
  | arrayLit (elements : List Expr)
  | mapLit (pairs : List (Expr × Expr))
  | rangeLit (start stop : Expr)
  | prefixE (op : String) (right : Expr)
  | infixE (op : String) (left right : Expr)
  | ifE (cond : Expr) (consequence : List Stmt) (alternative : Option (List Stmt))
  | funcLit (name : String) (params : List FunctionParam) (body : List Stmt)
  | callE (function : Expr) (args : List CallArg)
  | indexE (left index : Expr)
  | pipeE (left right : Expr)
  | assignE (target value : Expr)
  | nilE

/-- One part of an interpolated string literal: either literal text or an
embedded expression (Go `ast.StringPart{IsExpr, Text, Expr}`). -/
inductive StringPart where
  | text (s : String)
  | expr (e : Expr)

/-- One function parameter with an optional default expression
(Go `ast.FunctionParam{Name, Default}`). -/
inductive FunctionParam where
  | mk (name : String) (dflt : Option Expr)

/-- One call argument, optionally named (Go `ast.CallArg{Name, Value}`;
`Name = ""` means positional). -/
inductive CallArg where
  | mk (name : String) (value : Expr)

/-- Statements (Go `ast.LetStatement`, `ast.ReturnStatement`,
`ast.ExpressionStatement`, `ast.ForStatement`, `ast.WhileStatement`). -/
inductive Stmt where
  | letS (name : String) (value : Expr)
  | returnS (value : Option Expr)
  | exprS (e : Expr)
  | forS (loopVar : String) (iterable : Expr) (body : List Stmt)
  | whileS (cond : Expr) (body : List Stmt)

end

def FunctionParam.name : FunctionParam → String
  | .mk n _ => n

def FunctionParam.dflt : FunctionParam → Option Expr
  | .mk _ d => d

def CallArg.name : CallArg → String
  | .mk n _ => n

def CallArg.value : CallArg → Expr
  | .mk _ v => v

/-- Hash key of a hashable object.  Modelled from the spec: the `object`
package is not in the provided sources; per spec section 3 a Map is
"keyed by a hash of {type,value}", and the hashable kinds are the
scalar ones (Integer, Boolean, String).  The hash is modelled as the
tagged value itself (an injective hash). -/
inductive HashKey where
  | intKey (i : Int)
  | boolKey (b : Bool)
  | strKey (s : String)
deriving DecidableEq

/-- Runtime values.  Modelled from the spec: the `object` package is not
in the provided sources; the variant set follows spec section 3.  A
compiled `regexp.Regexp` (Go standard library) is represented by its
pattern text together with an abstract leftmost-match function
`String → Option (start, length)`.  A Function's captured environment is
an index into the environment store.  `goNil` stands for Go's `nil`
`object.Object` interface value. -/
inductive Obj where
  | integer (value : Int)
  | float (value : Float)
  | str (value : String)
  | boolean (value : Bool)
  | null
  | array (elements : List Obj)
  | mapO (pairs : List (HashKey × Obj × Obj))
  | rangeO (start stop : Int)
  | regex (pattern : String) (matcher : String → Option (Nat × Nat))
  | function (params : List FunctionParam) (body : List Stmt) (env : Nat) (name : String)
  | builtin (name : String)
  | returnValue (value : Obj)
  | error (message : String)
  | goNil

def INTEGER_OBJ : String := "INTEGER"

def FLOAT_OBJ : String := "FLOAT"

def STRING_OBJ : String := "STRING"

def BOOLEAN_OBJ : String := "BOOLEAN"

def NULL_OBJ : String := "NULL"

def ARRAY_OBJ : String := "ARRAY"

def MAP_OBJ : String := "MAP"

def RANGE_OBJ : String := "RANGE"

def REGEX_OBJ : String := "REGEX"

def FUNCTION_OBJ : String := "FUNCTION"

def BUILTIN_OBJ : String := "BUILTIN"

def RETURN_VALUE_OBJ : String := "RETURN_VALUE"

def ERROR_OBJ : String := "ERROR"

/-- Type tag of an object (Go `Object.Type()`).  Modelled from the spec:
`object` package missing from the sources; tags per spec section 6
(`Object.kind() -> type tag string`).  `goNil` gets a marker tag that no
dispatch matches, standing for the Go panic a `nil.Type()` call would
be; it is never reached in the claims below. -/
def Obj.typeOf : Obj → String
  | .integer _ => INTEGER_OBJ
  | .float _ => FLOAT_OBJ
  | .str _ => STRING_OBJ
  | .boolean _ => BOOLEAN_OBJ
  | .null => NULL_OBJ
  | .array _ => ARRAY_OBJ
  | .mapO _ => MAP_OBJ
  | .rangeO _ _ => RANGE_OBJ
  | .regex _ _ => REGEX_OBJ
  | .function _ _ _ _ => FUNCTION_OBJ
  | .builtin _ => BUILTIN_OBJ
  | .returnValue _ => RETURN_VALUE_OBJ
  | .error _ => ERROR_OBJ
  | .goNil => "GO_NIL"

mutual

/-- Display form of an object (Go `Object.Inspect()`).  Modelled from
the spec: `object` package missing from the sources; display forms per
spec sections 6 and 8 (`"x is {x}"` shows `10` for the Integer 10,
`null` for Null) and the README examples.  The display of Function,
Range, Regex and Builtin objects is not pinned down by the spec and is
rendered minimally; no claim below depends on those forms. -/
def Obj.inspect : Obj → String
  | .integer v => toString v
  | .float v => toString v
  | .str v => v
  | .boolean v => toString v
  | .null => "null"
  | .array es => "[" ++ String.intercalate ", " (inspectList es) ++ "]"
  | .mapO ps => "\x7b" ++ String.intercalate ", " (inspectPairList ps) ++ "\x7d"
  | .rangeO a b => toString a ++ ".." ++ toString b
  | .regex p _ => "/" ++ p ++ "/"
  | .function _ _ _ _ => "fn"
  | .builtin n => "builtin function " ++ n
  | .returnValue v => Obj.inspect v
  | .error m => "ERROR: " ++ m
  | .goNil => ""

/-- Display forms of a list of objects, in order. -/
def inspectList : List Obj → List String
  | [] => []
  | o :: os => Obj.inspect o :: inspectList os

/-- Display forms of the pairs of a Map object, in order. -/
def inspectPairList : List (HashKey × Obj × Obj) → List String
  | [] => []
  | (_, k, v) :: ps => (Obj.inspect k ++ ": " ++ Obj.inspect v) :: inspectPairList ps

end

/-- Two's-complement wrap-around into the `int64` range, modelling Go's
unchecked 64-bit integer arithmetic. -/
def wrap64 (x : Int) : Int := (x + 2 ^ 63) % 2 ^ 64 - 2 ^ 63

/-- Hashability check (Go `index.(object.Hashable)` type assertion).
Modelled from the spec: `object` package missing from the sources;
see `HashKey`. -/
def hashKeyOf : Obj → Option HashKey
  | .integer v => some (.intKey v)
  | .boolean b => some (.boolKey b)
  | .str s => some (.strKey s)
  | _ => none

/-- Lookup in a Map object's pair table by hash key (Go
`hashObject.Pairs[key.HashKey()]`). -/
def mapPairsGet : List (HashKey × Obj × Obj) → HashKey → Option (Obj × Obj)
  | [], _ => none
  | (h, k, v) :: rest, hk => if h = hk then some (k, v) else mapPairsGet rest hk

/-- Insertion/overwrite in a Map object's pair table by hash key (Go
`pairs[hashed] = object.MapPair{...}`). -/
def mapPairsSet : List (HashKey × Obj × Obj) → HashKey → Obj → Obj → List (HashKey × Obj × Obj)
  | [], hk, k, v => [(hk, k, v)]
  | (h, k0, v0) :: rest, hk, k, v =>
    if h = hk then (hk, k, v) :: rest else (h, k0, v0) :: mapPairsSet rest hk k v

/-- One scope frame: an ordered name-to-object table plus an optional
enclosing scope.  Modelled from the spec: `object.Environment` is not in
the provided sources; spec section 3 describes it as "an ordered mapping
from identifier name to Object, plus an optional link to an enclosing
(parent) Environment". -/
structure Frame where
  table : List (String × Obj)
  parent : Option Nat

/-- The store of all allocated environment frames; an environment
reference is an index into this list.  This renders the shared mutable
environment chains of the Go program in a pure setting. -/
abbrev EnvStore := List Frame

/-- Lookup in one frame's table (Go map read). -/
def tableGet : List (String × Obj) → String → Option Obj
  | [], _ => none
  | (k, v) :: rest, name => if k = name then some v else tableGet rest name

/-- Insert or overwrite in one frame's table (Go map write). -/
def tableSet : List (String × Obj) → String → Obj → List (String × Obj)
  | [], name, v => [(name, v)]
  | (k, w) :: rest, name, v =>
    if k = name then (name, v) :: rest else (k, w) :: tableSet rest name v

/-- Replace the frame at an index of the store. -/
def storeModify : EnvStore → Nat → (Frame → Frame) → EnvStore
  | [], _, _ => []
  | f :: rest, 0, g => g f :: rest
  | f :: rest, n + 1, g => f :: storeModify rest n g

/-- Walk of the scope chain for a name (Go `Environment.Get`), fueled by
the chain length.  Modelled from the spec: "Lookup walks outward to the
first scope defining the name". -/
def envGetAux : Nat → EnvStore → Nat → String → Option Obj
  | 0, _, _, _ => none
  | fuel + 1, s, ref, name =>
    match s[ref]? with
    | none => none
    | some fr =>
      match tableGet fr.table name with
      | some v => some v
      | none =>
        match fr.parent with
        | some p => envGetAux fuel s p name
        | none => none

/-- Environment lookup (Go `Environment.Get`); parents were always
allocated before their children, so `s.length` bounds the chain. -/
def envGet (s : EnvStore) (ref : Nat) (name : String) : Option Obj :=
  envGetAux s.length s ref name

/-- Binding in the current scope (Go `Environment.Set`).  Modelled from
the spec: "`let` always introduces a binding in the *current* scope". -/
def envSet (s : EnvStore) (ref : Nat) (name : String) (v : Obj) : EnvStore :=
  storeModify s ref (fun f => { f with table := tableSet f.table name v })

/-- Walk of the scope chain for an existing binding (Go
`Environment.Update`), fueled by the chain length.  Modelled from the
spec: "assignment to an existing binding mutates it in the scope where
it was *defined* (it does not shadow)"; returns `false`, with the store
untouched, when no scope defines the name. -/
def envUpdateAux : Nat → EnvStore → Nat → String → Obj → Bool × EnvStore
  | 0, s, _, _, _ => (false, s)
  | fuel + 1, s, ref, name, v =>
    match s[ref]? with
    | none => (false, s)
    | some fr =>
      if (tableGet fr.table name).isSome then
        (true, envSet s ref name v)
      else
        match fr.parent with
        | some p => envUpdateAux fuel s p name v
        | none => (false, s)

/-- Environment update (Go `Environment.Update`). -/
def envUpdate (s : EnvStore) (ref : Nat) (name : String) (v : Obj) : Bool × EnvStore :=
  envUpdateAux s.length s ref name v

/-- Whether a name is bound anywhere along the scope chain, fueled like
the walks above. -/
def envBoundAux : Nat → EnvStore → Nat → String → Bool
  | 0, _, _, _ => false
  | fuel + 1, s, ref, name =>
    match s[ref]? with
    | none => false
    | some fr =>
      if (tableGet fr.table name).isSome then true
      else
        match fr.parent with
        | some p => envBoundAux fuel s p name
        | none => false

/-- Whether a name is bound anywhere along the scope chain. -/
def envBound (s : EnvStore) (ref : Nat) (name : String) : Bool :=
  envBoundAux s.length s ref name

/-- Allocation of a fresh child scope (Go
`object.NewEnclosedEnvironment`).  Modelled from the spec: function
application "binds a fresh child environment off the function's
*captured* environment". -/
def envNewEnclosed (s : EnvStore) (parent : Nat) : Nat × EnvStore :=
  (s.length, s ++ [{ table := [], parent := some parent }])

/-- Allocation of a fresh top-level scope (Go `object.NewEnvironment`);
spec section 6: "A fresh top-level Environment has no parent". -/
def envNewTop (s : EnvStore) : Nat × EnvStore :=
  (s.length, s ++ [{ table := [], parent := none }])

/-- Truthiness of a value (evaluator `isTruthy`): `Null` is false,
`Boolean` is itself, `Integer` false only at zero, `String` false only
when empty, `Array` false only when empty, every other type true. -/
def isTruthy : Obj → Bool
  | .null => false
  | .boolean v => v
  | .integer v => v != 0
  | .str v => v != ""
  | .array es => es.length > 0
  | _ => true

/-- Conversion of a native boolean to the Boolean singletons (evaluator
`nativeBoolToBooleanObject`). -/
def nativeBoolToBooleanObject (input : Bool) : Obj :=
  .boolean input

/-- Construction of a runtime Error object (evaluator `newError`); the
`fmt.Sprintf` formatting is rendered by string concatenation at each
call site. -/
def newError (message : String) : Obj :=
  .error message

/-- Error check on a sub-result (evaluator `isError`): a non-nil object
whose type tag is `ERROR`.  `Obj.goNil` stands for Go `nil` and its
marker tag is not `ERROR`, so the nil guard is subsumed. -/
def isError (obj : Obj) : Bool :=
  obj.typeOf == ERROR_OBJ

/-- Integer-integer infix operators (evaluator
`evalIntegerInfixExpression`): 64-bit arithmetic with two's-complement
wrap-around and no overflow checking, truncated division and remainder,
division and modulo by zero as runtime errors.  The unreachable fallback
stands for the Go type assertions `left.(*object.Integer)`. -/
def evalIntegerInfixExpression (operator : String) (left right : Obj) : Obj :=
  match left, right with
  | .integer leftVal, .integer rightVal =>
    if operator == "+" then .integer (wrap64 (leftVal + rightVal))
    else if operator == "-" then .integer (wrap64 (leftVal - rightVal))
    else if operator == "*" then .integer (wrap64 (leftVal * rightVal))
    else if operator == "/" then
      if rightVal = 0 then newError "division by zero"
      else .integer (wrap64 (leftVal.tdiv rightVal))
    else if operator == "%" then
      if rightVal = 0 then newError "division by zero"
      else .integer (wrap64 (leftVal.tmod rightVal))
    else if operator == "<" then nativeBoolToBooleanObject (leftVal < rightVal)
    else if operator == ">" then nativeBoolToBooleanObject (leftVal > rightVal)
    else if operator == "<=" then nativeBoolToBooleanObject (leftVal ≤ rightVal)
    else if operator == ">=" then nativeBoolToBooleanObject (leftVal ≥ rightVal)
    else if operator == "==" then nativeBoolToBooleanObject (leftVal = rightVal)
    else if operator == "!=" then nativeBoolToBooleanObject (leftVal ≠ rightVal)
    else newError ("unknown operator: " ++ left.typeOf ++ " " ++ operator ++ " " ++ right.typeOf)
  | _, _ => .error "panic: type assertion"

/-- Float (or mixed) infix operators (evaluator
`evalFloatInfixExpression`); an operand that is neither Float nor
Integer leaves the Go zero value `0.0`, exactly as the source's
uninitialised `var leftVal, rightVal float64` would. -/
def evalFloatInfixExpression (operator : String) (left right : Obj) : Obj :=
  let leftVal : Float :=
    match left with
    | .float v => v
    | .integer v => Float.ofInt v
    | _ => 0.0
  let rightVal : Float :=
    match right with
    | .float v => v
    | .integer v => Float.ofInt v
    | _ => 0.0
  if operator == "+" then .float (leftVal + rightVal)
  else if operator == "-" then .float (leftVal - rightVal)
  else if operator == "*" then .float (leftVal * rightVal)
  else if operator == "/" then
    if rightVal == 0 then newError "division by zero"
    else .float (leftVal / rightVal)
  else if operator == "<" then nativeBoolToBooleanObject (leftVal < rightVal)
  else if operator == ">" then nativeBoolToBooleanObject (leftVal > rightVal)
  else if operator == "<=" then nativeBoolToBooleanObject (leftVal ≤ rightVal)
  else if operator == ">=" then nativeBoolToBooleanObject (leftVal ≥ rightVal)
  else if operator == "==" then nativeBoolToBooleanObject (leftVal == rightVal)
  else if operator == "!=" then nativeBoolToBooleanObject (!(leftVal == rightVal))
  else newError ("unknown operator: " ++ left.typeOf ++ " " ++ operator ++ " " ++ right.typeOf)

/-- String-string infix operators (evaluator
`evalStringInfixExpression`): concatenation `++`, equality `==`/`!=`,
and the orderings `<` and `>`; everything else is an unknown-operator
error. -/
def evalStringInfixExpression (operator : String) (left right : Obj) : Obj :=
  match left, right with
  | .str leftVal, .str rightVal =>
    if operator == "++" then .str (leftVal ++ rightVal)
    else if operator == "==" then nativeBoolToBooleanObject (leftVal == rightVal)
    else if operator == "!=" then nativeBoolToBooleanObject (leftVal != rightVal)
    else if operator == "<" then nativeBoolToBooleanObject (decide (leftVal < rightVal))
    else if operator == ">" then nativeBoolToBooleanObject (decide (rightVal < leftVal))
    else newError ("unknown operator: " ++ left.typeOf ++ " " ++ operator ++ " " ++ right.typeOf)
  | _, _ => .error "panic: type assertion"

/-- String-regex match operators (evaluator `evalRegexMatchExpression`):
`~` and `!~` as boolean match tests; `re.MatchString` is rendered by the
abstract matcher reporting a match. -/
def evalRegexMatchExpression (operator : String) (left right : Obj) : Obj :=
  match left, right with
  | .str s, .regex _ matcher =>
    let matched := (matcher s).isSome
    if operator == "~" then nativeBoolToBooleanObject matched
    else if operator == "!~" then nativeBoolToBooleanObject (!matched)
    else newError ("unknown operator: " ++ left.typeOf ++ " " ++ operator ++ " " ++ right.typeOf)
  | _, _ => .error "panic: type assertion"

/-- Modelled from the spec: the evaluator's fallback `left == right`
compares Go interface values, i.e. pointer identity.  The Boolean and
Null objects are package-level singletons, so for those pointer identity
is value identity; distinct evaluations of other kinds yield distinct
pointers, rendered here as `false`.  (Aliasing, under which two other
references could be pointer-equal, is not exercised by any claim.) -/
def goPtrEq : Obj → Obj → Bool
  | .boolean a, .boolean b => a == b
  | .null, .null => true
  | _, _ => false

/-- Infix dispatch on operand runtime types (evaluator
`evalInfixExpression`), in the source's case order. -/
def evalInfixExpression (operator : String) (left right : Obj) : Obj :=
  if left.typeOf == INTEGER_OBJ && right.typeOf == INTEGER_OBJ then
    evalIntegerInfixExpression operator left right
  else if left.typeOf == FLOAT_OBJ || right.typeOf == FLOAT_OBJ then
    evalFloatInfixExpression operator left right
  else if left.typeOf == STRING_OBJ && right.typeOf == STRING_OBJ then
    evalStringInfixExpression operator left right
  else if left.typeOf == STRING_OBJ && right.typeOf == REGEX_OBJ then
    evalRegexMatchExpression operator left right
  else if operator == "==" then nativeBoolToBooleanObject (goPtrEq left right)
  else if operator == "!=" then nativeBoolToBooleanObject (!goPtrEq left right)
  else newError ("unknown operator: " ++ left.typeOf ++ " " ++ operator ++ " " ++ right.typeOf)

/-- Logical negation (evaluator `evalBangOperatorExpression`). -/
def evalBangOperatorExpression (right : Obj) : Obj :=
  if isTruthy right then .boolean false else .boolean true

/-- Arithmetic negation (evaluator
`evalMinusPrefixOperatorExpression`); `-int64` wraps. -/
def evalMinusPrefixOperatorExpression (right : Obj) : Obj :=
  match right with
  | .integer v => .integer (wrap64 (-v))
  | .float v => .float (-v)
  | _ => newError ("unknown operator: -" ++ right.typeOf)

/-- Prefix-operator dispatch (evaluator `evalPrefixExpression`). -/
def evalPrefixExpression (operator : String) (right : Obj) : Obj :=
  if operator == "!" || operator == "not" then evalBangOperatorExpression right
  else if operator == "-" then evalMinusPrefixOperatorExpression right
  else newError ("unknown operator: " ++ operator ++ right.typeOf)

/-- Array indexing (evaluator `evalArrayIndexExpression`): a negative
index counts from the end; any out-of-range index yields Null. -/
def evalArrayIndexExpression (array index : Obj) : Obj :=
  match array, index with
  | .array elems, .integer idx0 =>
    let maxIdx : Int := (elems.length : Int) - 1
    let idx : Int := if idx0 < 0 then (elems.length : Int) + idx0 else idx0
    if idx < 0 || idx > maxIdx then Obj.null
    else elems.getD idx.toNat Obj.null
  | _, _ => .error "panic: type assertion"

/-- String indexing (evaluator `evalStringIndexExpression`), with the
same negative-index and out-of-range treatment as arrays.  Go indexes
bytes; this is modelled at character granularity, which coincides on the
ASCII data used here. -/
def evalStringIndexExpression (strObj index : Obj) : Obj :=
  match strObj, index with
  | .str s, .integer idx0 =>
    let cs := s.data
    let maxIdx : Int := (cs.length : Int) - 1
    let idx : Int := if idx0 < 0 then (cs.length : Int) + idx0 else idx0
    if idx < 0 || idx > maxIdx then Obj.null
    else .str (String.mk [cs.getD idx.toNat ' '])
  | _, _ => .error "panic: type assertion"

/-- Map indexing (evaluator `evalMapIndexExpression`): an unhashable
index is an error; an absent key yields Null. -/
def evalMapIndexExpression (hash index : Obj) : Obj :=
  match hash with
  | .mapO pairs =>
    match hashKeyOf index with
    | none => newError ("unusable as map key: " ++ index.typeOf)
    | some hk =>
      match mapPairsGet pairs hk with
      | none => Obj.null
      | some (_, v) => v
  | _ => .error "panic: type assertion"

/-- Index dispatch on the left-hand type (evaluator
`evalIndexExpression`), in the source's case order. -/
def evalIndexExpression (left index : Obj) : Obj :=
  if left.typeOf == ARRAY_OBJ && index.typeOf == INTEGER_OBJ then
    evalArrayIndexExpression left index
  else if left.typeOf == STRING_OBJ && index.typeOf == INTEGER_OBJ then
    evalStringIndexExpression left index
  else if left.typeOf == MAP_OBJ then
    evalMapIndexExpression left index
  else newError ("index operator not supported: " ++ left.typeOf ++ "[" ++ index.typeOf ++ "]")

/-- Modelled from the spec: Go's `strings.Replace(s, old, new, n)`
(standard library, external to this repository): it returns a copy of
`s` with the first `n` non-overlapping instances of `old` replaced by
`new` (`n < 0` meaning no limit); an empty `old` matches at the
beginning of the string and after each character.  Each recursive step
consumes at least one character, so fuel `length + 1` never runs out. -/
def goReplaceFuel (old new : List Char) : Nat → List Char → Int → List Char
  | 0, cs, _ => cs
  | fuel + 1, cs, n =>
    if n = 0 then cs
    else if old.isEmpty then
      new ++ (match cs with
        | [] => []
        | c :: rest => c :: goReplaceFuel old new fuel rest (n - 1))
    else if old.isPrefixOf cs then
      new ++ goReplaceFuel old new fuel (cs.drop old.length) (n - 1)
    else
      match cs with
      | [] => []
      | c :: rest => c :: goReplaceFuel old new fuel rest n

/-- Go `strings.Replace` on strings (see `goReplaceFuel`). -/
def goStringsReplace (s old new : String) (n : Int) : String :=
  String.mk (goReplaceFuel old.data new.data (s.data.length + 1) s.data n)

/-- Go `strings.ReplaceAll(s, old, new)`, which the standard library
defines as `strings.Replace(s, old, new, -1)`. -/
def goStringsReplaceAll (s old new : String) : String :=
  goStringsReplace s old new (-1)

/-- Modelled from the spec: Go's `(*regexp.Regexp).ReplaceAllString`
(standard library): it replaces every non-overlapping leftmost match
with the replacement.  The compiled regexp is abstracted as its
leftmost-match function on the remaining suffix (`some (start, length)`
or `none`); on a zero-length match one character is kept and scanning
resumes after it. -/
def regexpReplaceAllFuel (find : String → Option (Nat × Nat)) (new : List Char) :
    Nat → List Char → List Char
  | 0, cs => cs
  | fuel + 1, cs =>
    match find (String.mk cs) with
    | none => cs
    | some (i, len) =>
      if len = 0 then
        cs.take i ++ new ++ (match cs.drop i with
          | [] => []
          | c :: rest => c :: regexpReplaceAllFuel find new fuel rest)
      else
        cs.take i ++ new ++ regexpReplaceAllFuel find new fuel (cs.drop (i + len))

/-- Go `re.ReplaceAllString(s, new)` (see `regexpReplaceAllFuel`). -/
def goRegexpReplaceAllString (find : String → Option (Nat × Nat)) (s new : String) : String :=
  String.mk (regexpReplaceAllFuel find new.data (s.data.length + 1) s.data)

/-- Leftmost-match function of the regex `\d`: the first decimal digit
of the string, as a width-1 match. -/
def digitFind (s : String) : Option (Nat × Nat) :=
  match s.data.findIdx? (fun c => c.isDigit) with
  | some i => some (i, 1)
  | none => none

/-- Modelled from the spec: `regexp.Compile` (Go standard library).  The
regex engine is external to this repository; compilation is modelled as
always succeeding, with a matcher that is left uninterpreted (it reports
no match).  No claim below evaluates a regex literal through the
evaluator; the claims about `replace` construct their Regex argument
with an explicit matcher such as `digitFind`. -/
def regexpCompile (_pattern : String) : Option (String → Option (Nat × Nat)) :=
  some (fun _ => none)

/-- The `replace` builtin (`builtins["replace"]`): with a String `old`
it is `strings.Replace(s, old, new, 1)` (first instance only); with a
Regex `old` it is `old.Regexp.ReplaceAllString(s, new)` (every match). -/
def replaceBuiltin (args : List Obj) : Obj :=
  if args.length ≠ 3 then newError "replace() takes 3 arguments: string, old, new"
  else
    match args with
    | [arg0, arg1, arg2] =>
      match arg0 with
      | .str s =>
        match arg1 with
        | .str old =>
          match arg2 with
          | .str newStr => .str (goStringsReplace s old newStr 1)
          | _ => newError "replace() new must be a string"
        | .regex _ find =>
          match arg2 with
          | .str newStr => .str (goRegexpReplaceAllString find s newStr)
          | _ => newError "replace() new must be a string"
        | _ => newError "replace() old must be a string or regex"
      | _ => newError "replace() first arg must be a string"
    | _ => newError "replace() takes 3 arguments: string, old, new"

/-- The `replace_all` builtin (`builtins["replace_all"]`):
`strings.ReplaceAll(s, old, new)`; `old` must be a String (a Regex is
rejected). -/
def replaceAllBuiltin (args : List Obj) : Obj :=
  if args.length ≠ 3 then newError "replace_all() takes 3 arguments"
  else
    match args with
    | [arg0, arg1, arg2] =>
      match arg0 with
      | .str s =>
        match arg1 with
        | .str old =>
          match arg2 with
          | .str newStr => .str (goStringsReplaceAll s old newStr)
          | _ => newError "replace_all() new must be a string"
        | _ => newError "replace_all() old must be a string"
      | _ => newError "replace_all() first arg must be a string"
    | _ => newError "replace_all() takes 3 arguments"

/-- The dedup walk of the `unique` builtin: keeps the first element for
each display form (`el.Inspect()`), tracking the forms already seen
(the Go `seen` map). -/
def uniqueGo (seen : List String) : List Obj → List Obj
  | [] => []
  | el :: rest =>
    let key := el.inspect
    if seen.contains key then uniqueGo seen rest
    else el :: uniqueGo (key :: seen) rest

/-- The `unique` builtin (`builtins["unique"]`): removes duplicate
elements, where two elements are duplicates when their display forms
(`Inspect`) coincide; first occurrences are kept in order. -/
def uniqueBuiltin (args : List Obj) : Obj :=
  if args.length ≠ 1 then newError "unique() takes 1 argument"
  else
    match args with
    | [arg0] =>
      match arg0 with
      | .array elems => .array (uniqueGo [] elems)
      | _ => newError "unique() requires an array"
    | _ => newError "unique() takes 1 argument"

/-- Names present in the builtin registry.  The Go table has some forty
entries; only the ones a claim exercises are embedded here, and no claim
refers to any other entry. -/
def builtinNames : List String := ["replace", "replace_all", "unique"]

/-- Native implementation dispatch for the embedded builtins (the Go
`Builtin.Fn` closures); an unembedded name yields Go `nil`. -/
def builtinDispatch (name : String) (args : List Obj) : Obj :=
  if name == "replace" then replaceBuiltin args
  else if name == "replace_all" then replaceAllBuiltin args
  else if name == "unique" then uniqueBuiltin args
  else .goNil

/-- Identifier resolution (evaluator `evalIdentifier`): the environment
chain first, then the builtin registry, else an undefined-variable
error. -/
def evalIdentifier (name : String) (env : Nat) (s : EnvStore) : Obj :=
  match envGet s env name with
  | some v => v
  | none =>
    if builtinNames.contains name then .builtin name
    else newError ("undefined variable: " ++ name)

/-- Partition of evaluated arguments into named and positional
(the first loop of evaluator `extendFunctionEnv`): the i-th argument is
named when call-site syntax is available (`callArgs != nil`), has an
i-th entry, and that entry carries a non-empty name; `tableSet` renders
the Go map's overwrite-on-duplicate behaviour. -/
def partitionCallArgsLoop :
    List Obj → Option (List CallArg) → Nat → List (String × Obj) → List Obj →
    List (String × Obj) × List Obj
  | [], _, _, named, pos => (named, pos)
  | a :: rest, callArgs, i, named, pos =>
    let nm : String :=
      match callArgs with
      | some cas =>
        match cas[i]? with
        | some ca => ca.name
        | none => ""
      | none => ""
    if nm ≠ "" then partitionCallArgsLoop rest callArgs (i + 1) (tableSet named nm a) pos
    else partitionCallArgsLoop rest callArgs (i + 1) named (pos ++ [a])

/-- Unwrapping of the Return sentinel at a function-application boundary
(evaluator `unwrapReturnValue`). -/
def unwrapReturnValue : Obj → Obj
  | .returnValue v => v
  | o => o

/-- The ascending integer sequence of a half-open Range
(`for i := obj.Start; i < obj.End; i++`). -/
def rangeToList (start stop : Int) : List Int :=
  (List.range (stop - start).toNat).map (fun k => start + k)

set_option maxHeartbeats 1600000 in
mutual

/-- Program evaluation (evaluator `evalProgram`): statements in order;
a `ReturnValue` result stops the program and is unwrapped, an `Error`
stops it un-unwrapped; `result` carries the previous statement's value
(initially Go `nil`). -/
def evalProgramLoop : Nat → List Stmt → Nat → EnvStore → Obj → Option (Obj × EnvStore)
  | 0, _, _, _, _ => none
  | _ + 1, [], _, s, result => some (result, s)
  | fuel + 1, st :: rest, env, s, _ =>
    match evalStmt fuel st env s with
    | none => none
    | some (r, s1) =>
      match r with
      | .returnValue v => some (v, s1)
      | .error m => some (.error m, s1)
      | _ => evalProgramLoop fuel rest env s1 r
termination_by structural fuel => fuel

/-- Block evaluation (evaluator `evalBlockStatement`): statements in
order; a non-nil result whose type tag is `RETURN_VALUE` or `ERROR`
stops the block and is returned *without* unwrapping. -/
def evalBlockLoop : Nat → List Stmt → Nat → EnvStore → Obj → Option (Obj × EnvStore)
  | 0, _, _, _, _ => none
  | _ + 1, [], _, s, result => some (result, s)
  | fuel + 1, st :: rest, env, s, _ =>
    match evalStmt fuel st env s with
    | none => none
    | some (r, s1) =>
      if r.typeOf == RETURN_VALUE_OBJ || r.typeOf == ERROR_OBJ then some (r, s1)
      else evalBlockLoop fuel rest env s1 r
termination_by structural fuel => fuel

/-- Statement dispatch: the statement cases of the evaluator's `Eval`
switch (`LetStatement`, `ReturnStatement`, `ExpressionStatement`,
`ForStatement`, `WhileStatement`). -/
def evalStmt : Nat → Stmt → Nat → EnvStore → Option (Obj × EnvStore)
  | 0, _, _, _ => none
  | fuel + 1, st, env, s =>
    match st with
    | .letS name value =>
      match evalExpr fuel value env s with
      | none => none
      | some (val, s1) =>
        if isError val then some (val, s1)
        else some (val, envSet s1 env name val)
    | .returnS none => some (.returnValue .null, s)
    | .returnS (some e) =>
      match evalExpr fuel e env s with
      | none => none
      | some (val, s1) =>
        if isError val then some (val, s1)
        else some (.returnValue val, s1)
    | .exprS e => evalExpr fuel e env s
    | .forS loopVar iterable body =>
      match evalExpr fuel iterable env s with
      | none => none
      | some (it, s1) =>
        if isError it then some (it, s1)
        else
          match it with
          | .array elems => evalForLoop fuel loopVar elems body env s1 .null
          | .rangeO a b =>
            evalForLoop fuel loopVar ((rangeToList a b).map Obj.integer) body env s1 .null
          | .str v =>
            evalForLoop fuel loopVar (v.data.map (fun c => Obj.str (String.mk [c]))) body env s1 .null
          | .mapO pairs =>
            evalForLoop fuel loopVar (pairs.map (fun p => p.2.1)) body env s1 .null
          | _ => some (newError ("cannot iterate over " ++ it.typeOf), s1)
    | .whileS cond body => evalWhileLoop fuel cond body env s .null
termination_by structural fuel => fuel

/-- One shared rendering of the four identical per-element loops of
evaluator `evalForStatement` (Array elements, Range integers, String
characters, Map keys): each iteration binds the loop variable in a
fresh child environment, an Error or ReturnValue from the body stops
the loop, and the loop's value is the last body result (initially
Null). -/
def evalForLoop : Nat → String → List Obj → List Stmt → Nat → EnvStore → Obj → Option (Obj × EnvStore)
  | 0, _, _, _, _, _, _ => none
  | _ + 1, _, [], _, _, s, result => some (result, s)
  | fuel + 1, loopVar, el :: rest, body, env, s, _ =>
    let (ref, s1) := envNewEnclosed s env
    let s2 := envSet s1 ref loopVar el
    match evalBlockLoop fuel body ref s2 .goNil with
    | none => none
    | some (r, s3) =>
      if isError r then some (r, s3)
      else
        match r with
        | .returnValue v => some (.returnValue v, s3)
        | _ => evalForLoop fuel loopVar rest body env s3 r
termination_by structural fuel => fuel

/-- Loop of evaluator `evalWhileStatement`: the condition is
re-evaluated before every iteration and the body shares the enclosing
environment (no implicit inner scope). -/
def evalWhileLoop : Nat → Expr → List Stmt → Nat → EnvStore → Obj → Option (Obj × EnvStore)
  | 0, _, _, _, _, _ => none
  | fuel + 1, cond, body, env, s, result =>
    match evalExpr fuel cond env s with
    | none => none
    | some (c, s1) =>
      if isError c then some (c, s1)
      else if !isTruthy c then some (result, s1)
      else
        match evalBlockLoop fuel body env s1 .goNil with
        | none => none
        | some (r, s2) =>
          if isError r then some (r, s2)
          else
            match r with
            | .returnValue v => some (.returnValue v, s2)
            | _ => evalWhileLoop fuel cond body env s2 r
termination_by structural fuel => fuel

/-- Expression dispatch: the expression cases of the evaluator's `Eval`
switch.  A `nilE` node (Go `nil`) matches no case and yields Go `nil`,
exactly like the `return nil` at the bottom of the Go switch. -/
def evalExpr : Nat → Expr → Nat → EnvStore → Option (Obj × EnvStore)
  | 0, _, _, _ => none
  | _ + 1, .identE name, env, s => some (evalIdentifier name env s, s)
  | _ + 1, .intLit v, _, s => some (.integer v, s)
  | _ + 1, .floatLit v, _, s => some (.float v, s)
  | fuel + 1, .stringLit value parts, env, s =>
    if parts.isEmpty then some (.str value, s)
    else evalStringPartsLoop fuel parts env s ""
  | _ + 1, .boolLit b, _, s => some (nativeBoolToBooleanObject b, s)
  | _ + 1, .nullLit, _, s => some (.null, s)
  | _ + 1, .regexLit pattern, _, s =>
    match regexpCompile pattern with
    | none => some (newError ("invalid regex pattern: " ++ pattern), s)
    | some matcher => some (.regex pattern matcher, s)
  | fuel + 1, .arrayLit elements, env, s =>
    match evalExpressionsLoop fuel elements env s [] with
    | none => none
    | some (elems, s1) =>
      if elems.length == 1 && isError (elems.headD .goNil) then
        some (elems.headD .goNil, s1)
      else some (.array elems, s1)
  | fuel + 1, .mapLit pairs, env, s => evalMapLiteralLoop fuel pairs env s []
  | fuel + 1, .rangeLit startE stopE, env, s =>
    match evalExpr fuel startE env s with
    | none => none
    | some (startV, s1) =>
      if isError startV then some (startV, s1)
      else
        match evalExpr fuel stopE env s1 with
        | none => none
        | some (stopV, s2) =>
          if isError stopV then some (stopV, s2)
          else
            match startV with
            | .integer a =>
              match stopV with
              | .integer b => some (.rangeO a b, s2)
              | _ => some (newError ("range end must be an integer, got " ++ stopV.typeOf), s2)
            | _ => some (newError ("range start must be an integer, got " ++ startV.typeOf), s2)
  | fuel + 1, .prefixE op right, env, s =>
    match evalExpr fuel right env s with
    | none => none
    | some (r, s1) =>
      if isError r then some (r, s1)
      else some (evalPrefixExpression op r, s1)
  | fuel + 1, .infixE op l r, env, s =>
    if op == "and" || op == "or" then
      match evalExpr fuel l env s with
      | none => none
      | some (left, s1) =>
        if isError left then some (left, s1)
        else if op == "and" then
          if !isTruthy left then some (left, s1) else evalExpr fuel r env s1
        else
          if isTruthy left then some (left, s1) else evalExpr fuel r env s1
    else
      match evalExpr fuel l env s with
      | none => none
      | some (left, s1) =>
        if isError left then some (left, s1)
        else
          match evalExpr fuel r env s1 with
          | none => none
          | some (right, s2) =>
            if isError right then some (right, s2)
            else some (evalInfixExpression op left right, s2)
  | fuel + 1, .ifE cond consequence alternative, env, s =>
    match evalExpr fuel cond env s with
    | none => none
    | some (c, s1) =>
      if isError c then some (c, s1)
      else if isTruthy c then evalBlockLoop fuel consequence env s1 .goNil
      else
        match alternative with
        | some alt => evalBlockLoop fuel alt env s1 .goNil
        | none => some (.null, s1)
  | _ + 1, .funcLit name params body, env, s =>
    let fn := Obj.function params body env name
    if name ≠ "" then some (fn, envSet s env name fn)
    else some (fn, s)
  | fuel + 1, .callE fexpr args, env, s =>
    match evalExpr fuel fexpr env s with
    | none => none
    | some (f, s1) =>
      if isError f then some (f, s1)
      else
        match evalCallArgumentsLoop fuel args env s1 [] with
        | none => none
        | some (argVals, s2) =>
          if argVals.length == 1 && isError (argVals.headD .goNil) then
            some (argVals.headD .goNil, s2)
          else applyFunction fuel f argVals (some args) s2
  | fuel + 1, .indexE le ie, env, s =>
    match evalExpr fuel le env s with
    | none => none
    | some (left, s1) =>
      if isError left then some (left, s1)
      else
        match evalExpr fuel ie env s1 with
        | none => none
        | some (index, s2) =>
          if isError index then some (index, s2)
          else some (evalIndexExpression left index, s2)
  | fuel + 1, .pipeE l r, env, s => evalPipeExpressionE fuel l r env s
  | fuel + 1, .assignE target value, env, s => evalAssignExpressionE fuel target value env s
  | _ + 1, .nilE, _, s => some (.goNil, s)
termination_by structural fuel => fuel

/-- Pipe evaluation (evaluator `evalPipeExpression`): the left side is
evaluated first; a call on the right gets the left value prepended as an
implicit first positional argument (and `applyFunction` is given *no*
call-site argument syntax); a bare identifier on the right is called
with just the piped value; anything else is a runtime error.  The Go
function switches on the right node after evaluating the left side;
here the right node is matched in the top-level patterns, with the
identical left-side evaluation repeated in each arm. -/
def evalPipeExpressionE : Nat → Expr → Expr → Nat → EnvStore → Option (Obj × EnvStore)
  | 0, _, _, _, _ => none
  | fuel + 1, l, .callE fexpr args, env, s =>
    match evalExpr fuel l env s with
    | none => none
    | some (left, s1) =>
      if isError left then some (left, s1)
      else
        match evalExpr fuel fexpr env s1 with
        | none => none
        | some (fn, s2) =>
          if isError fn then some (fn, s2)
          else
            match evalPipeArgsLoop fuel args env s2 [left] with
            | none => none
            | some (.inr err, s3) => some (err, s3)
            | some (.inl argVals, s3) => applyFunction fuel fn argVals none s3
  | fuel + 1, l, .identE name, env, s =>
    match evalExpr fuel l env s with
    | none => none
    | some (left, s1) =>
      if isError left then some (left, s1)
      else
        let fn := evalIdentifier name env s1
        if isError fn then some (fn, s1)
        else applyFunction fuel fn [left] none s1
  | fuel + 1, l, _, env, s =>
    match evalExpr fuel l env s with
    | none => none
    | some (left, s1) =>
      if isError left then some (left, s1)
      else some (newError "right side of pipe must be a function call", s1)
termination_by structural fuel => fuel

/-- Assignment evaluation (evaluator `evalAssignExpression`): the value
is evaluated first; an identifier target is updated in the scope where
it was defined (an unbound name is an undefined-variable error and
introduces nothing); an index target mutates an array slot (bounds
violation is a hard error, unlike plain reads) or inserts/overwrites a
map entry; any other target is an error.  The Go function switches on
the target node after evaluating the value; here the target node is
matched in the top-level patterns, with the identical value evaluation
repeated in each arm.  The in-place mutation of the shared Array/Map is
not representable in the value model of collections (no claim
exercises collection aliasing); the produced value and errors are. -/
def evalAssignExpressionE : Nat → Expr → Expr → Nat → EnvStore → Option (Obj × EnvStore)
  | 0, _, _, _, _ => none
  | fuel + 1, .identE name, value, env, s =>
    match evalExpr fuel value env s with
    | none => none
    | some (val, s1) =>
      if isError val then some (val, s1)
      else
        let (ok, s2) := envUpdate s1 env name val
        if ok then some (val, s2)
        else some (newError ("undefined variable: " ++ name), s2)
  | fuel + 1, .indexE le ie, value, env, s =>
    match evalExpr fuel value env s with
    | none => none
    | some (val, s1) =>
      if isError val then some (val, s1)
      else
        match evalExpr fuel le env s1 with
        | none => none
        | some (left, s2) =>
          if isError left then some (left, s2)
          else
            match evalExpr fuel ie env s2 with
            | none => none
            | some (index, s3) =>
              if isError index then some (index, s3)
              else
                match left with
                | .array elems =>
                  match index with
                  | .integer idx =>
                    if idx < 0 || idx ≥ (elems.length : Int) then
                      some (newError ("array index out of bounds: " ++ toString idx), s3)
                    else some (val, s3)
                  | _ => some (.error "panic: type assertion", s3)
                | .mapO _ =>
                  match hashKeyOf index with
                  | none => some (newError ("unusable as map key: " ++ index.typeOf), s3)
                  | some _ => some (val, s3)
                | _ => some (newError ("cannot assign to index of " ++ left.typeOf), s3)
  | fuel + 1, _, value, env, s =>
    match evalExpr fuel value env s with
    | none => none
    | some (val, s1) =>
      if isError val then some (val, s1)
      else some (newError "cannot assign to this expression", s1)
termination_by structural fuel => fuel

/-- Interpolated-string evaluation (evaluator `evalStringLiteral`, the
non-empty-parts path): parts are concatenated in order, expression
parts through their evaluated value's display form; an Error in a part
propagates. -/
def evalStringPartsLoop : Nat → List StringPart → Nat → EnvStore → String → Option (Obj × EnvStore)
  | 0, _, _, _, _ => none
  | _ + 1, [], _, s, acc => some (.str acc, s)
  | fuel + 1, .text t :: rest, env, s, acc => evalStringPartsLoop fuel rest env s (acc ++ t)
  | fuel + 1, .expr e :: rest, env, s, acc =>
    match evalExpr fuel e env s with
    | none => none
    | some (v, s1) =>
      if isError v then some (v, s1)
      else evalStringPartsLoop fuel rest env s1 (acc ++ v.inspect)
termination_by structural fuel => fuel

/-- Left-to-right evaluation of an expression list (evaluator
`evalExpressions`): on the first Error the singleton list holding just
that error is returned, exactly as in the source (callers test
`len == 1 && isError(args[0])`). -/
def evalExpressionsLoop : Nat → List Expr → Nat → EnvStore → List Obj → Option (List Obj × EnvStore)
  | 0, _, _, _, _ => none
  | _ + 1, [], _, s, acc => some (acc, s)
  | fuel + 1, e :: rest, env, s, acc =>
    match evalExpr fuel e env s with
    | none => none
    | some (v, s1) =>
      if isError v then some ([v], s1)
      else evalExpressionsLoop fuel rest env s1 (acc ++ [v])
termination_by structural fuel => fuel

/-- Left-to-right evaluation of call-argument values (evaluator
`evalCallArguments`); argument names play no role here. -/
def evalCallArgumentsLoop : Nat → List CallArg → Nat → EnvStore → List Obj → Option (List Obj × EnvStore)
  | 0, _, _, _, _ => none
  | _ + 1, [], _, s, acc => some (acc, s)
  | fuel + 1, a :: rest, env, s, acc =>
    match evalExpr fuel a.value env s with
    | none => none
    | some (v, s1) =>
      if isError v then some ([v], s1)
      else evalCallArgumentsLoop fuel rest env s1 (acc ++ [v])
termination_by structural fuel => fuel

/-- Map-literal evaluation (evaluator `evalMapLiteral`): each key must
be hashable, keys and values are evaluated in entry order, a duplicate
hash key overwrites. -/
def evalMapLiteralLoop : Nat → List (Expr × Expr) → Nat → EnvStore →
    List (HashKey × Obj × Obj) → Option (Obj × EnvStore)
  | 0, _, _, _, _ => none
  | _ + 1, [], _, s, acc => some (.mapO acc, s)
  | fuel + 1, (ke, ve) :: rest, env, s, acc =>
    match evalExpr fuel ke env s with
    | none => none
    | some (k, s1) =>
      if isError k then some (k, s1)
      else
        match hashKeyOf k with
        | none => some (newError ("unusable as map key: " ++ k.typeOf), s1)
        | some hk =>
          match evalExpr fuel ve env s1 with
          | none => none
          | some (v, s2) =>
            if isError v then some (v, s2)
            else evalMapLiteralLoop fuel rest env s2 (mapPairsSet acc hk k v)
termination_by structural fuel => fuel

/-- The argument loop inlined in evaluator `evalPipeExpression`: the
piped value is already in the accumulator, the call's argument values
are appended in order, and the first Error is returned directly
(`Sum.inr`). -/
def evalPipeArgsLoop : Nat → List CallArg → Nat → EnvStore → List Obj →
    Option ((List Obj ⊕ Obj) × EnvStore)
  | 0, _, _, _, _ => none
  | _ + 1, [], _, s, acc => some (.inl acc, s)
  | fuel + 1, a :: rest, env, s, acc =>
    match evalExpr fuel a.value env s with
    | none => none
    | some (v, s1) =>
      if isError v then some (.inr v, s1)
      else evalPipeArgsLoop fuel rest env s1 (acc ++ [v])
termination_by structural fuel => fuel

/-- Function application (evaluator `applyFunction`): a user Function
gets a fresh environment extended with its arguments and its body's
result unwrapped; a Builtin calls its native implementation on the
evaluated arguments (a Go `nil` native result becomes Null); anything
else is a not-a-function error. -/
def applyFunction : Nat → Obj → List Obj → Option (List CallArg) → EnvStore →
    Option (Obj × EnvStore)
  | 0, _, _, _, _ => none
  | fuel + 1, fn, args, callArgs, s =>
    match fn with
    | .function params body fenv _ =>
      match extendFunctionEnv fuel params fenv args callArgs s with
      | none => none
      | some (ref, s1) =>
        match evalBlockLoop fuel body ref s1 .goNil with
        | none => none
        | some (r, s2) => some (unwrapReturnValue r, s2)
    | .builtin name =>
      match builtinDispatch name args with
      | .goNil => some (.null, s)
      | r => some (r, s)
    | _ => some (newError ("not a function: " ++ fn.typeOf), s)
termination_by structural fuel => fuel

/-- Parameter binding (evaluator `extendFunctionEnv`): a fresh child of
the function's *captured* environment; arguments are partitioned into
named and positional from the call-site syntax, then bound by
`extendBindLoop`.  The Go function receives `fn *object.Function`; its
`Parameters` and `Env` fields are passed here directly. -/
def extendFunctionEnv : Nat → List FunctionParam → Nat → List Obj → Option (List CallArg) →
    EnvStore → Option (Nat × EnvStore)
  | 0, _, _, _, _, _ => none
  | fuel + 1, params, fenv, args, callArgs, s =>
    let (ref, s1) := envNewEnclosed s fenv
    let (namedArgs, positionalArgs) := partitionCallArgsLoop args callArgs 0 [] []
    match extendBindLoop fuel params namedArgs positionalArgs fenv ref s1 with
    | none => none
    | some s2 => some (ref, s2)
termination_by structural fuel => fuel

/-- The parameter loop of evaluator `extendFunctionEnv`, in declaration
order: a matching named argument first, else the next unused positional
argument, else the default expression evaluated against the function's
defining environment `fenv` (its result is bound even if it is an
Error, as in the source), else Null. -/
def extendBindLoop : Nat → List FunctionParam → List (String × Obj) → List Obj → Nat → Nat →
    EnvStore → Option EnvStore
  | 0, _, _, _, _, _, _ => none
  | _ + 1, [], _, _, _, _, s => some s
  | fuel + 1, p :: rest, namedArgs, positionalArgs, fenv, ref, s =>
    match tableGet namedArgs p.name with
    | some v => extendBindLoop fuel rest namedArgs positionalArgs fenv ref (envSet s ref p.name v)
    | none =>
      match positionalArgs with
      | v :: ps => extendBindLoop fuel rest namedArgs ps fenv ref (envSet s ref p.name v)
      | [] =>
        match p.dflt with
        | some de =>
          match evalExpr fuel de fenv s with
          | none => none
          | some (v, s1) => extendBindLoop fuel rest namedArgs [] fenv ref (envSet s1 ref p.name v)
        | none => extendBindLoop fuel rest namedArgs [] fenv ref (envSet s ref p.name .null)
termination_by structural fuel => fuel

end

/-- Program evaluation entry point (`Eval` on an `ast.Program`); the
running result starts as Go `nil`. -/
def evalProgram (fuel : Nat) (stmts : List Stmt) (env : Nat) (s : EnvStore) :
    Option (Obj × EnvStore) :=
  evalProgramLoop fuel stmts env s .goNil

/-- Block evaluation entry point (`Eval` on an `ast.BlockStatement`). -/
def evalBlock (fuel : Nat) (stmts : List Stmt) (env : Nat) (s : EnvStore) :
    Option (Obj × EnvStore) :=
  evalBlockLoop fuel stmts env s .goNil

/-- A lexical token (the `token` package's `Token` struct: kind, literal
text, line, column).  The modelled lexer below does not track source
positions (no claim exercises diagnostic positions), so `line` and
`col` are 0. -/
structure Token where
  ttype : String
  literal : String
  line : Nat
  col : Nat

def tokILLEGAL : String := "ILLEGAL"

def tokEOF : String := "EOF"

def tokIDENT : String := "IDENT"

def tokINT : String := "INT"

def tokFLOAT : String := "FLOAT"

def tokSTRING : String := "STRING"

def tokREGEX : String := "REGEX"

def tokASSIGN : String := "="

def tokPLUS : String := "+"

def tokMINUS : String := "-"

def tokBANG : String := "!"

def tokASTERISK : String := "*"

def tokSLASH : String := "/"

def tokPERCENT : String := "%"

def tokLT : String := "<"

def tokGT : String := ">"

def tokEQ : String := "=="

def tokNOT_EQ : String := "!="

def tokLTE : String := "<="

def tokGTE : String := ">="

def tokCONCAT : String := "++"

def tokPIPE : String := "|>"

def tokMATCH : String := "~"

def tokNOTMATCH : String := "!~"

def tokRANGE : String := ".."

def tokCOMMA : String := ","

def tokCOLON : String := ":"

def tokSEMICOLON : String := ";"

def tokNEWLINE : String := "NEWLINE"

def tokLPAREN : String := "("

def tokRPAREN : String := ")"

def tokLBRACE : String := "\x7b"

def tokRBRACE : String := "\x7d"

def tokLBRACKET : String := "["

def tokRBRACKET : String := "]"

def tokLET : String := "LET"

def tokFN : String := "FN"

def tokTRUE : String := "TRUE"

def tokFALSE : String := "FALSE"

def tokIF : String := "IF"

def tokELSE : String := "ELSE"

def tokRETURN : String := "RETURN"

def tokFOR : String := "FOR"

def tokIN : String := "IN"

def tokWHILE : String := "WHILE"

def tokAND : String := "AND"

def tokOR : String := "OR"

def tokNOT : String := "NOT"

def tokNULL : String := "NULL"

def tokTRY : String := "TRY"

def tokCATCH : String := "CATCH"

def tokARROW : String := "=>"

/-- Keyword table of the `token` package (`keywords` map). -/
def keywordLookupList : List (String × String) :=
  [("fn", tokFN), ("let", tokLET), ("true", tokTRUE), ("false", tokFALSE),
   ("if", tokIF), ("else", tokELSE), ("return", tokRETURN), ("for", tokFOR),
   ("in", tokIN), ("while", tokWHILE), ("and", tokAND), ("or", tokOR),
   ("not", tokNOT), ("null", tokNULL), ("try", tokTRY), ("catch", tokCATCH)]

/-- Keyword classification (`token.LookupIdent`): the keyword table
overrides identifier classification. -/
def lookupIdent (ident : String) : String :=
  match (keywordLookupList.find? (fun kv => kv.1 == ident)) with
  | some kv => kv.2
  | none => tokIDENT

/-- Remaining input of the lexer; its cursor state reduced to the
unconsumed character list. -/
structure LexState where
  input : List Char

/-- Identifier characters.  Modelled from the spec (section 4.1):
identifiers are recognised with longest match; ASCII letters and the
underscore start one. -/
def isLetterCh (c : Char) : Bool :=
  ('a' ≤ c && c ≤ 'z') || ('A' ≤ c && c ≤ 'Z') || c == '_'

/-- Digit characters. -/
def isDigitCh (c : Char) : Bool :=
  '0' ≤ c && c ≤ '9'

/-- Modelled from the spec (section 4.1): whitespace skipping.  Spaces,
tabs and carriage returns are whitespace; a `#` line comment is skipped
up to (not including) the newline; newlines are significant tokens and
are not skipped.  Every step consumes at least one character, so fuel
`length + 1` never runs out. -/
def skipWSFuel : Nat → List Char → List Char
  | 0, cs => cs
  | fuel + 1, cs =>
    match cs with
    | ' ' :: rest => skipWSFuel fuel rest
    | '\t' :: rest => skipWSFuel fuel rest
    | '\r' :: rest => skipWSFuel fuel rest
    | '#' :: rest => skipWSFuel fuel (rest.dropWhile (fun c => c ≠ '\n'))
    | other => other

/-- Whitespace and comment skipping (see `skipWSFuel`). -/
def skipWS (cs : List Char) : List Char :=
  skipWSFuel (cs.length + 1) cs

/-- Modelled from the spec (section 4.1): the character run of an
identifier. -/
def readIdentChars (cs : List Char) : List Char × List Char :=
  (cs.takeWhile (fun c => isLetterCh c || isDigitCh c),
   cs.dropWhile (fun c => isLetterCh c || isDigitCh c))

/-- Modelled from the spec (section 4.1): number reading.  Digits, then
a fractional part only when a `.` is followed by a digit (a bare
trailing `.` is not consumed as part of the number). -/
def readNumberChars (cs : List Char) : (List Char × Bool) × List Char :=
  let intPart := cs.takeWhile isDigitCh
  let rest := cs.dropWhile isDigitCh
  match rest with
  | '.' :: d :: rest2 =>
    if isDigitCh d then
      let frac := (d :: rest2).takeWhile isDigitCh
      let rest3 := (d :: rest2).dropWhile isDigitCh
      ((intPart ++ '.' :: frac, true), rest3)
    else ((intPart, false), rest)
  | _ => ((intPart, false), rest)

/-- Modelled from the spec (section 4.1): double-quoted string reading
with backslash escapes (the opening quote already consumed).  Escapes
`\n \t \r \" \\ \x7b` are processed; unknown escapes pass through
literally (backslash kept); end of input terminates the string. -/
def readStringChars : List Char → List Char × List Char
  | [] => ([], [])
  | '"' :: rest => ([], rest)
  | '\\' :: e :: rest =>
    let decoded : List Char :=
      if e == 'n' then ['\n']
      else if e == 't' then ['\t']
      else if e == 'r' then ['\r']
      else if e == '"' then ['"']
      else if e == '\\' then ['\\']
      else if e == '{' then ['{']
      else ['\\', e]
    let (s, rest2) := readStringChars rest
    (decoded ++ s, rest2)
  | c :: rest =>
    let (s, rest2) := readStringChars rest
    (c :: s, rest2)

/-- Modelled from the spec (section 4.1): raw regex-body reading up to
an unescaped closing `/`; a newline or end of input first is an
"unterminated regex" failure; a backslash keeps itself and the next
character (raw text, handed to the regex engine unprocessed). -/
def readRegexChars : List Char → Option (List Char × List Char)
  | [] => none
  | '\n' :: _ => none
  | '/' :: rest => some ([], rest)
  | '\\' :: c :: rest =>
    match readRegexChars rest with
    | none => none
    | some (pat, rest2) => some ('\\' :: c :: pat, rest2)
  | c :: rest =>
    match readRegexChars rest with
    | none => none
    | some (pat, rest2) => some (c :: pat, rest2)

/-- Constructor for provenance-less tokens (see `Token`). -/
def mkTok (ttype literal : String) : Token :=
  { ttype := ttype, literal := literal, line := 0, col := 0 }

/-- Modelled from the spec (section 4.1): `next_token() -> Token`.
Skips whitespace and comments, emits a significant NEWLINE token,
matches two-character operators greedily before their one-character
prefixes (`== != <= >= ++ |> .. !~ =>`), reads identifiers/keywords,
integer and float literals, and double-quoted strings. -/
def nextToken (st : LexState) : Token × LexState :=
  match skipWS st.input with
  | [] => (mkTok tokEOF "", { input := [] })
  | '\n' :: rest => (mkTok tokNEWLINE "\n", { input := rest })
  | '=' :: '=' :: rest => (mkTok tokEQ "==", { input := rest })
  | '=' :: '>' :: rest => (mkTok tokARROW "=>", { input := rest })
  | '=' :: rest => (mkTok tokASSIGN "=", { input := rest })
  | '!' :: '=' :: rest => (mkTok tokNOT_EQ "!=", { input := rest })
  | '!' :: '~' :: rest => (mkTok tokNOTMATCH "!~", { input := rest })
  | '!' :: rest => (mkTok tokBANG "!", { input := rest })
  | '<' :: '=' :: rest => (mkTok tokLTE "<=", { input := rest })
  | '<' :: rest => (mkTok tokLT "<", { input := rest })
  | '>' :: '=' :: rest => (mkTok tokGTE ">=", { input := rest })
  | '>' :: rest => (mkTok tokGT ">", { input := rest })
  | '+' :: '+' :: rest => (mkTok tokCONCAT "++", { input := rest })
  | '+' :: rest => (mkTok tokPLUS "+", { input := rest })
  | '|' :: '>' :: rest => (mkTok tokPIPE "|>", { input := rest })
  | '|' :: rest => (mkTok tokILLEGAL "|", { input := rest })
  | '.' :: '.' :: rest => (mkTok tokRANGE "..", { input := rest })
  | '-' :: rest => (mkTok tokMINUS "-", { input := rest })
  | '*' :: rest => (mkTok tokASTERISK "*", { input := rest })
  | '/' :: rest => (mkTok tokSLASH "/", { input := rest })
  | '%' :: rest => (mkTok tokPERCENT "%", { input := rest })
  | ',' :: rest => (mkTok tokCOMMA ",", { input := rest })
  | ':' :: rest => (mkTok tokCOLON ":", { input := rest })
  | ';' :: rest => (mkTok tokSEMICOLON ";", { input := rest })
  | '(' :: rest => (mkTok tokLPAREN "(", { input := rest })
  | ')' :: rest => (mkTok tokRPAREN ")", { input := rest })
  | '{' :: rest => (mkTok tokLBRACE "\x7b", { input := rest })
  | '}' :: rest => (mkTok tokRBRACE "\x7d", { input := rest })
  | '[' :: rest => (mkTok tokLBRACKET "[", { input := rest })
  | ']' :: rest => (mkTok tokRBRACKET "]", { input := rest })
  | '"' :: rest =>
    let (s, rest2) := readStringChars rest
    (mkTok tokSTRING (String.mk s), { input := rest2 })
  | c :: rest =>
    if isLetterCh c then
      let (ident, rest2) := readIdentChars (c :: rest)
      let lit := String.mk ident
      (mkTok (lookupIdent lit) lit, { input := rest2 })
    else if isDigitCh c then
      let ((numc, isFloat), rest2) := readNumberChars (c :: rest)
      (mkTok (if isFloat then tokFLOAT else tokINT) (String.mk numc), { input := rest2 })
    else (mkTok tokILLEGAL (String.mk [c]), { input := rest })

/-- Modelled from the spec (section 4.1): the lexer's raw regex-reading
entry point used by the parser (`Lexer.ReadRegex`), returning the
pattern text or an "unterminated regex" failure. -/
def lexReadRegex (st : LexState) : Except String (String × LexState) :=
  match readRegexChars st.input with
  | none => Except.error "unterminated regex"
  | some (pat, rest) => Except.ok (String.mk pat, { input := rest })

/-- Parser state (`parser.Parser`): the lexer it pulls from, the
current/lookahead token window, and the accumulated diagnostics. -/
structure PState where
  lex : LexState
  curToken : Token
  peekToken : Token
  errors : List String

/-- Token-window advance (`Parser.nextToken`). -/
def pNextToken (p : PState) : PState :=
  let (t, l1) := nextToken p.lex
  { lex := l1, curToken := p.peekToken, peekToken := t, errors := p.errors }

/-- Parser construction (`parser.New`): read two tokens so that both
`curToken` and `peekToken` are set. -/
def newParser (input : String) : PState :=
  let p0 : PState :=
    { lex := { input := input.data }, curToken := mkTok "" "", peekToken := mkTok "" "",
      errors := [] }
  pNextToken (pNextToken p0)

/-- Diagnostic accumulation (`Parser.addError`); the source formats
`"line %d, col %d: %s"` from the current token's provenance. -/
def pAddError (p : PState) (msg : String) : PState :=
  { p with errors := p.errors ++
      ["line " ++ toString p.curToken.line ++ ", col " ++ toString p.curToken.col ++ ": " ++ msg] }

def precLowest : Nat := 1

def precAssign : Nat := 2

def precPipe : Nat := 3

def precOr : Nat := 4

def precAnd : Nat := 5

def precEquals : Nat := 6

def precLessGreater : Nat := 7

def precMatch : Nat := 8

def precRange : Nat := 9

def precSum : Nat := 10

def precProduct : Nat := 11

def precPrefixOp : Nat := 12

def precCall : Nat := 13

def precIndex : Nat := 14

/-- The precedence table (`parser.precedences`); a token kind outside
the table has the default precedence `LOWEST`, as in `peekPrecedence`
and `curPrecedence`. -/
def precedenceOf (t : String) : Nat :=
  if t == tokASSIGN then precAssign
  else if t == tokPIPE then precPipe
  else if t == tokOR then precOr
  else if t == tokAND then precAnd
  else if t == tokEQ then precEquals
  else if t == tokNOT_EQ then precEquals
  else if t == tokLT then precLessGreater
  else if t == tokGT then precLessGreater
  else if t == tokLTE then precLessGreater
  else if t == tokGTE then precLessGreater
  else if t == tokMATCH then precMatch
  else if t == tokNOTMATCH then precMatch
  else if t == tokRANGE then precRange
  else if t == tokPLUS then precSum
  else if t == tokMINUS then precSum
  else if t == tokCONCAT then precSum
  else if t == tokSLASH then precProduct
  else if t == tokASTERISK then precProduct
  else if t == tokPERCENT then precProduct
  else if t == tokLPAREN then precCall
  else if t == tokLBRACKET then precIndex
  else precLowest

/-- Lookahead assertion (`Parser.expectPeek`): on the expected kind the
window advances; otherwise an `"expected X, got Y instead"` diagnostic
is recorded. -/
def expectPeek (t : String) (p : PState) : Bool × PState :=
  if p.peekToken.ttype == t then (true, pNextToken p)
  else (false, pAddError p ("expected " ++ t ++ ", got " ++ p.peekToken.ttype ++ " instead"))

/-- Token kinds with a registered infix parse routine (the
`registerInfix` calls in `parser.New`). -/
def hasInfixFn (t : String) : Bool :=
  t == tokPLUS || t == tokMINUS || t == tokSLASH || t == tokASTERISK || t == tokPERCENT ||
  t == tokCONCAT || t == tokEQ || t == tokNOT_EQ || t == tokLT || t == tokGT ||
  t == tokLTE || t == tokGTE || t == tokAND || t == tokOR || t == tokMATCH ||
  t == tokNOTMATCH || t == tokRANGE || t == tokPIPE || t == tokLPAREN || t == tokLBRACKET ||
  t == tokASSIGN

/-- Value of a run of decimal digit characters. -/
def digitsToNat : List Char → Nat → Nat
  | [], acc => acc
  | c :: rest, acc => digitsToNat rest (acc * 10 + (c.toNat - 48))

/-- Integer-literal conversion (`strconv.ParseInt(lit, 0, 64)` in
`parseIntegerLiteral`); the lexer only produces plain digit runs, so
the base-prefix forms of `ParseInt` cannot arise, and the int64 range
check remains. -/
def parseIntLit (s : String) : Option Int :=
  if s.data ≠ [] && s.data.all isDigitCh then
    let n := digitsToNat s.data 0
    if (n : Int) ≤ 2 ^ 63 - 1 then some (n : Int) else none
  else none

/-- Float-literal conversion (`strconv.ParseFloat(lit, 64)` in
`parseFloatLiteral`); the lexer only produces `digits` or
`digits.digits`. -/
def parseFloatLit (s : String) : Option Float :=
  let intPart := s.data.takeWhile (fun c => c ≠ '.')
  let rest := s.data.dropWhile (fun c => c ≠ '.')
  if intPart.all isDigitCh && intPart ≠ [] then
    match rest with
    | [] => some (Float.ofNat (digitsToNat intPart 0))
    | '.' :: frac =>
      if frac.all isDigitCh && frac ≠ [] then
        some (Float.ofScientific (digitsToNat (intPart ++ frac) 0) true frac.length)
      else none
    | _ => none
  else none

/-- Integer-literal prefix routine (`Parser.parseIntegerLiteral`); a
conversion failure records a diagnostic and yields a nil node. -/
def parseIntegerLiteralP (p : PState) : Option Expr × PState :=
  match parseIntLit p.curToken.literal with
  | none =>
    (some .nilE, pAddError p ("could not parse \"" ++ p.curToken.literal ++ "\" as integer"))
  | some v => (some (.intLit v), p)

/-- Float-literal prefix routine (`Parser.parseFloatLiteral`). -/
def parseFloatLiteralP (p : PState) : Option Expr × PState :=
  match parseFloatLit p.curToken.literal with
  | none =>
    (some .nilE, pAddError p ("could not parse \"" ++ p.curToken.literal ++ "\" as float"))
  | some v => (some (.floatLit v), p)

/-- Regex-literal prefix routine (`Parser.parseRegexLiteral`): reads
the raw regex body straight off the lexer; as in the source, the
current/lookahead token window is *not* resynchronised here. -/
def parseRegexLiteralP (p : PState) : Option Expr × PState :=
  match lexReadRegex p.lex with
  | .error e => (some .nilE, pAddError p ("invalid regex: " ++ e))
  | .ok (pat, l1) => (some (.regexLit pat), { p with lex := l1 })

/-- Regex-match infix routine (`Parser.parseMatchExpression`): the
right-hand side is read out-of-band from the lexer (the lookahead token
had already consumed the opening `/`), and the token window is then
resynchronised by hand: the current token becomes a synthetic REGEX
token and the lookahead is re-read from the lexer. -/
def parseMatchExpressionP (left : Expr) (p : PState) : Option Expr × PState :=
  let op := p.curToken.literal
  match lexReadRegex p.lex with
  | .error e => (some .nilE, pAddError p ("invalid regex: " ++ e))
  | .ok (pat, l1) =>
    let (t, l2) := nextToken l1
    let p1 : PState :=
      { lex := l2, curToken := mkTok tokREGEX ("/" ++ pat ++ "/"), peekToken := t,
        errors := p.errors }
    (some (.infixE op left (.regexLit pat)), p1)

/-- The `for p.curTokenIs(NEWLINE) { p.nextToken() }` loop inside
`parseMapLiteral`, fueled by the remaining input (each newline token
consumes at least one input character). -/
def skipCurNewlines : Nat → PState → PState
  | 0, p => p
  | fuel + 1, p =>
    if p.curToken.ttype == tokNEWLINE then skipCurNewlines fuel (pNextToken p) else p

/-- The `for p.peekTokenIs(COMMA) || p.peekTokenIs(NEWLINE)` skip loop
inside `parseMapLiteral`, fueled likewise. -/
def skipPeekCommaNewlines : Nat → PState → PState
  | 0, p => p
  | fuel + 1, p =>
    if p.peekToken.ttype == tokCOMMA || p.peekToken.ttype == tokNEWLINE then
      skipPeekCommaNewlines fuel (pNextToken p)
    else p

/-- The balanced-brace scan inside `parseStringParts`: starting just
after an opening `{` at nesting depth 1, each `{` increments and each
`}` decrements the depth; reaching depth 0 splits off the span's inner
text (the closing `}` excluded); running out of characters first means
the braces never balanced. -/
def findBalanced : List Char → Nat → List Char → Option (List Char × List Char)
  | [], _, _ => none
  | c :: rest, depth, acc =>
    let depth1 := if c == '{' then depth + 1 else if c == '}' then depth - 1 else depth
    if depth1 == 0 then some (acc.reverse, rest)
    else findBalanced rest depth1 (c :: acc)

mutual

/-- The statement loop of `Parser.ParseProgram`: skip blank lines,
parse statements until EOF, keep the ones that parsed.  (In the Go
source a failed `let`/`for`/`while` statement is appended as a typed
nil interface value; since any such failure also records a diagnostic
and a program with diagnostics is never evaluated, the nil node is
dropped here.) -/
def parseProgramLoop : Nat → PState → List Stmt → List Stmt × PState
  | 0, p, acc => (acc, p)
  | fuel + 1, p, acc =>
    if p.curToken.ttype == tokEOF then (acc, p)
    else if p.curToken.ttype == tokNEWLINE then parseProgramLoop fuel (pNextToken p) acc
    else
      match parseStatement fuel p with
      | (some st, p1) => parseProgramLoop fuel (pNextToken p1) (acc ++ [st])
      | (none, p1) => parseProgramLoop fuel (pNextToken p1) acc
termination_by structural fuel => fuel

/-- Statement dispatch (`Parser.parseStatement`). -/
def parseStatement : Nat → PState → Option Stmt × PState
  | 0, p => (none, p)
  | fuel + 1, p =>
    if p.curToken.ttype == tokLET then parseLetStatementP fuel p
    else if p.curToken.ttype == tokRETURN then parseReturnStatementP fuel p
    else if p.curToken.ttype == tokFOR then parseForStatementP fuel p
    else if p.curToken.ttype == tokWHILE then parseWhileStatementP fuel p
    else parseExpressionStatementP fuel p
termination_by structural fuel => fuel

/-- `Parser.parseLetStatement`: `let NAME = EXPR`, aborting the
statement when the identifier or the `=` is missing; a trailing
semicolon or newline is consumed. -/
def parseLetStatementP : Nat → PState → Option Stmt × PState
  | 0, p => (none, p)
  | fuel + 1, p =>
    let (ok, p1) := expectPeek tokIDENT p
    if !ok then (none, p1)
    else
      let name := p1.curToken.literal
      let (ok2, p2) := expectPeek tokASSIGN p1
      if !ok2 then (none, p2)
      else
        let p3 := pNextToken p2
        let (value, p4) := parseExpression fuel precLowest p3
        let p5 :=
          if p4.peekToken.ttype == tokSEMICOLON || p4.peekToken.ttype == tokNEWLINE then
            pNextToken p4
          else p4
        (some (.letS name value), p5)
termination_by structural fuel => fuel

/-- `Parser.parseReturnStatement`: the value is omitted when the next
token is a terminator, `}`, or end of input. -/
def parseReturnStatementP : Nat → PState → Option Stmt × PState
  | 0, p => (none, p)
  | fuel + 1, p =>
    let p1 := pNextToken p
    let (value?, p2) :=
      if p1.curToken.ttype ≠ tokNEWLINE && p1.curToken.ttype ≠ tokSEMICOLON &&
         p1.curToken.ttype ≠ tokEOF && p1.curToken.ttype ≠ tokRBRACE then
        let (v, p2) := parseExpression fuel precLowest p1
        (some v, p2)
      else (none, p1)
    let p3 :=
      if p2.peekToken.ttype == tokSEMICOLON || p2.peekToken.ttype == tokNEWLINE then
        pNextToken p2
      else p2
    (some (.returnS value?), p3)
termination_by structural fuel => fuel

/-- `Parser.parseForStatement`: `for NAME in ITERABLE { BODY }`. -/
def parseForStatementP : Nat → PState → Option Stmt × PState
  | 0, p => (none, p)
  | fuel + 1, p =>
    let (ok, p1) := expectPeek tokIDENT p
    if !ok then (none, p1)
    else
      let v := p1.curToken.literal
      let (ok2, p2) := expectPeek tokIN p1
      if !ok2 then (none, p2)
      else
        let p3 := pNextToken p2
        let (iter, p4) := parseExpression fuel precLowest p3
        let (ok3, p5) := expectPeek tokLBRACE p4
        if !ok3 then (none, p5)
        else
          let (body, p6) := parseBlockStatementP fuel p5
          (some (.forS v iter body), p6)
termination_by structural fuel => fuel

/-- `Parser.parseWhileStatement`: `while COND { BODY }`. -/
def parseWhileStatementP : Nat → PState → Option Stmt × PState
  | 0, p => (none, p)
  | fuel + 1, p =>
    let p1 := pNextToken p
    let (cond, p2) := parseExpression fuel precLowest p1
    let (ok, p3) := expectPeek tokLBRACE p2
    if !ok then (none, p3)
    else
      let (body, p4) := parseBlockStatementP fuel p3
      (some (.whileS cond body), p4)
termination_by structural fuel => fuel

/-- `Parser.parseExpressionStatement`; a trailing semicolon or newline
is consumed. -/
def parseExpressionStatementP : Nat → PState → Option Stmt × PState
  | 0, p => (none, p)
  | fuel + 1, p =>
    let (e, p1) := parseExpression fuel precLowest p
    let p2 :=
      if p1.peekToken.ttype == tokSEMICOLON || p1.peekToken.ttype == tokNEWLINE then
        pNextToken p1
      else p1
    (some (.exprS e), p2)
termination_by structural fuel => fuel

/-- Precedence climbing (`Parser.parseExpression`): the prefix routine
for the current token first (a missing routine records a diagnostic and
yields a nil node at once, without entering the infix loop), then the
infix loop. -/
def parseExpression : Nat → Nat → PState → Expr × PState
  | 0, _, p => (.nilE, p)
  | fuel + 1, prec, p =>
    match parsePrefixDispatch fuel p with
    | (none, p1) => (.nilE, p1)
    | (some left, p1) => parseInfixLoop fuel prec left p1
termination_by structural fuel => fuel

/-- The prefix-routine table (`registerPrefix` calls in `parser.New`),
dispatching on the current token kind; `none` means no routine is
registered (with the `"no prefix parse function"` diagnostic recorded),
while a routine that fails yields a nil node. -/
def parsePrefixDispatch : Nat → PState → Option Expr × PState
  | 0, p => (none, p)
  | fuel + 1, p =>
    let t := p.curToken.ttype
    if t == tokIDENT then (some (.identE p.curToken.literal), p)
    else if t == tokINT then parseIntegerLiteralP p
    else if t == tokFLOAT then parseFloatLiteralP p
    else if t == tokSTRING then
      let lit := p.curToken.literal
      (some (.stringLit lit (parseStringPartsGo fuel lit.data)), p)
    else if t == tokTRUE || t == tokFALSE then (some (.boolLit (t == tokTRUE)), p)
    else if t == tokNULL then (some .nullLit, p)
    else if t == tokBANG || t == tokMINUS || t == tokNOT then parsePrefixExpressionP fuel p
    else if t == tokLPAREN then parseGroupedExpressionP fuel p
    else if t == tokIF then parseIfExpressionP fuel p
    else if t == tokFN then parseFunctionLiteralP fuel p
    else if t == tokLBRACKET then parseArrayLiteralP fuel p
    else if t == tokLBRACE then parseMapLiteralP fuel p
    else if t == tokSLASH then parseRegexLiteralP p
    else (none, pAddError p ("no prefix parse function for " ++ t))
termination_by structural fuel => fuel

/-- The infix loop of `Parser.parseExpression`: while the lookahead is
not a terminator and binds tighter than the minimum precedence, and an
infix routine is registered for it, advance and apply that routine. -/
def parseInfixLoop : Nat → Nat → Expr → PState → Expr × PState
  | 0, _, left, p => (left, p)
  | fuel + 1, prec, left, p =>
    if p.peekToken.ttype == tokSEMICOLON || p.peekToken.ttype == tokNEWLINE then (left, p)
    else if prec < precedenceOf p.peekToken.ttype then
      if hasInfixFn p.peekToken.ttype then
        let p1 := pNextToken p
        match parseInfixDispatch fuel left p1 with
        | (some left1, p2) => parseInfixLoop fuel prec left1 p2
        | (none, p2) => parseInfixLoop fuel prec .nilE p2
      else (left, p)
    else (left, p)
termination_by structural fuel => fuel

/-- The infix-routine table (`registerInfix` calls in `parser.New`),
dispatching on the (already advanced-to) current token kind; only
called for kinds with a registered routine. -/
def parseInfixDispatch : Nat → Expr → PState → Option Expr × PState
  | 0, left, p => (some left, p)
  | fuel + 1, left, p =>
    let t := p.curToken.ttype
    if t == tokLPAREN then parseCallExpressionP fuel left p
    else if t == tokLBRACKET then parseIndexExpressionP fuel left p
    else if t == tokMATCH || t == tokNOTMATCH then parseMatchExpressionP left p
    else if t == tokRANGE then parseRangeExpressionP fuel left p
    else if t == tokPIPE then parsePipeExpressionP fuel left p
    else if t == tokASSIGN then parseAssignExpressionP fuel left p
    else parseInfixExpressionP fuel left p
termination_by structural fuel => fuel

/-- `Parser.parsePrefixExpression`: operator literal, then the operand
at `PREFIX` precedence. -/
def parsePrefixExpressionP : Nat → PState → Option Expr × PState
  | 0, p => (some .nilE, p)
  | fuel + 1, p =>
    let op := p.curToken.literal
    let p1 := pNextToken p
    let (right, p2) := parseExpression fuel precPrefixOp p1
    (some (.prefixE op right), p2)
termination_by structural fuel => fuel

/-- `Parser.parseInfixExpression` (the generic left-associative infix
routine): right side at the operator's own precedence. -/
def parseInfixExpressionP : Nat → Expr → PState → Option Expr × PState
  | 0, left, p => (some left, p)
  | fuel + 1, left, p =>
    let op := p.curToken.literal
    let prec := precedenceOf p.curToken.ttype
    let p1 := pNextToken p
    let (right, p2) := parseExpression fuel prec p1
    (some (.infixE op left right), p2)
termination_by structural fuel => fuel

/-- `Parser.parseRangeExpression`: right side at `RANGE_PREC` (its own
precedence, so ranges do not chain). -/
def parseRangeExpressionP : Nat → Expr → PState → Option Expr × PState
  | 0, left, p => (some left, p)
  | fuel + 1, left, p =>
    let p1 := pNextToken p
    let (stop, p2) := parseExpression fuel precRange p1
    (some (.rangeLit left stop), p2)
termination_by structural fuel => fuel

/-- `Parser.parsePipeExpression`: right side at `PIPE_PREC` (its own
precedence), so that a following `|>` does not bind into the right side
and chained pipes associate to the left. -/
def parsePipeExpressionP : Nat → Expr → PState → Option Expr × PState
  | 0, left, p => (some left, p)
  | fuel + 1, left, p =>
    let p1 := pNextToken p
    let (right, p2) := parseExpression fuel precPipe p1
    (some (.pipeE left right), p2)
termination_by structural fuel => fuel

/-- `Parser.parseAssignExpression`: right side at `LOWEST`. -/
def parseAssignExpressionP : Nat → Expr → PState → Option Expr × PState
  | 0, left, p => (some left, p)
  | fuel + 1, left, p =>
    let p1 := pNextToken p
    let (v, p2) := parseExpression fuel precLowest p1
    (some (.assignE left v), p2)
termination_by structural fuel => fuel

/-- `Parser.parseGroupedExpression`. -/
def parseGroupedExpressionP : Nat → PState → Option Expr × PState
  | 0, p => (some .nilE, p)
  | fuel + 1, p =>
    let p1 := pNextToken p
    let (e, p2) := parseExpression fuel precLowest p1
    let (ok, p3) := expectPeek tokRPAREN p2
    if ok then (some e, p3) else (some .nilE, p3)
termination_by structural fuel => fuel

/-- `Parser.parseIfExpression`: condition, brace block, optional
`else` brace block. -/
def parseIfExpressionP : Nat → PState → Option Expr × PState
  | 0, p => (some .nilE, p)
  | fuel + 1, p =>
    let p1 := pNextToken p
    let (cond, p2) := parseExpression fuel precLowest p1
    let (ok, p3) := expectPeek tokLBRACE p2
    if !ok then (some .nilE, p3)
    else
      let (consequence, p4) := parseBlockStatementP fuel p3
      if p4.peekToken.ttype == tokELSE then
        let p5 := pNextToken p4
        let (ok2, p6) := expectPeek tokLBRACE p5
        if !ok2 then (some .nilE, p6)
        else
          let (alt, p7) := parseBlockStatementP fuel p6
          (some (.ifE cond consequence (some alt)), p7)
      else (some (.ifE cond consequence none), p4)
termination_by structural fuel => fuel

/-- `Parser.parseBlockStatement`: statements until `}` or end of
input, skipping blank lines. -/
def parseBlockStatementP : Nat → PState → List Stmt × PState
  | 0, p => ([], p)
  | fuel + 1, p => parseBlockLoop fuel (pNextToken p) []
termination_by structural fuel => fuel

/-- The statement loop of `Parser.parseBlockStatement`. -/
def parseBlockLoop : Nat → PState → List Stmt → List Stmt × PState
  | 0, p, acc => (acc, p)
  | fuel + 1, p, acc =>
    if p.curToken.ttype == tokRBRACE || p.curToken.ttype == tokEOF then (acc, p)
    else if p.curToken.ttype == tokNEWLINE then parseBlockLoop fuel (pNextToken p) acc
    else
      match parseStatement fuel p with
      | (some st, p1) => parseBlockLoop fuel (pNextToken p1) (acc ++ [st])
      | (none, p1) => parseBlockLoop fuel (pNextToken p1) acc
termination_by structural fuel => fuel

/-- `Parser.parseFunctionLiteral`: optional bound name after `fn`,
parenthesised parameters, brace block body. -/
def parseFunctionLiteralP : Nat → PState → Option Expr × PState
  | 0, p => (some .nilE, p)
  | fuel + 1, p =>
    let (name, p1) :=
      if p.peekToken.ttype == tokIDENT then
        let pn := pNextToken p
        (pn.curToken.literal, pn)
      else ("", p)
    let (ok, p2) := expectPeek tokLPAREN p1
    if !ok then (some .nilE, p2)
    else
      let (params, p3) := parseFunctionParametersP fuel p2
      let (ok2, p4) := expectPeek tokLBRACE p3
      if !ok2 then (some .nilE, p4)
      else
        let (body, p5) := parseBlockStatementP fuel p4
        (some (.funcLit name params body), p5)
termination_by structural fuel => fuel

/-- One parameter with optional `= default` (the parameter step of
`Parser.parseFunctionParameters`). -/
def parseOneParamP : Nat → PState → FunctionParam × PState
  | 0, p => (.mk p.curToken.literal none, p)
  | fuel + 1, p =>
    let name := p.curToken.literal
    if p.peekToken.ttype == tokASSIGN then
      let p1 := pNextToken (pNextToken p)
      let (d, p2) := parseExpression fuel precLowest p1
      (.mk name (some d), p2)
    else (.mk name none, p)
termination_by structural fuel => fuel

/-- `Parser.parseFunctionParameters`; a missing `)` yields the Go nil
slice (empty list) after recording the diagnostic. -/
def parseFunctionParametersP : Nat → PState → List FunctionParam × PState
  | 0, p => ([], p)
  | fuel + 1, p =>
    if p.peekToken.ttype == tokRPAREN then ([], pNextToken p)
    else
      let p1 := pNextToken p
      let (prm, p2) := parseOneParamP fuel p1
      let (params, p3) := parseParamsLoop fuel p2 [prm]
      let (ok, p4) := expectPeek tokRPAREN p3
      if ok then (params, p4) else ([], p4)
termination_by structural fuel => fuel

/-- The comma loop of `Parser.parseFunctionParameters`. -/
def parseParamsLoop : Nat → PState → List FunctionParam → List FunctionParam × PState
  | 0, p, acc => (acc, p)
  | fuel + 1, p, acc =>
    if p.peekToken.ttype == tokCOMMA then
      let p1 := pNextToken (pNextToken p)
      let (prm, p2) := parseOneParamP fuel p1
      parseParamsLoop fuel p2 (acc ++ [prm])
    else (acc, p)
termination_by structural fuel => fuel

/-- `Parser.parseCallExpression`. -/
def parseCallExpressionP : Nat → Expr → PState → Option Expr × PState
  | 0, left, p => (some left, p)
  | fuel + 1, function, p =>
    let (args, p1) := parseCallArgumentsP fuel p
    (some (.callE function args), p1)
termination_by structural fuel => fuel

/-- One call argument (the argument step of
`Parser.parseCallArguments`): named-ness is detected by the lookahead
`IDENT` followed immediately by `=` at this argument position. -/
def parseOneCallArgP : Nat → PState → CallArg × PState
  | 0, p => (.mk "" .nilE, p)
  | fuel + 1, p =>
    if p.curToken.ttype == tokIDENT && p.peekToken.ttype == tokASSIGN then
      let name := p.curToken.literal
      let p1 := pNextToken (pNextToken p)
      let (v, p2) := parseExpression fuel precLowest p1
      (.mk name v, p2)
    else
      let (v, p1) := parseExpression fuel precLowest p
      (.mk "" v, p1)
termination_by structural fuel => fuel

/-- `Parser.parseCallArguments`; a missing `)` yields the Go nil slice
(empty list) after recording the diagnostic. -/
def parseCallArgumentsP : Nat → PState → List CallArg × PState
  | 0, p => ([], p)
  | fuel + 1, p =>
    if p.peekToken.ttype == tokRPAREN then ([], pNextToken p)
    else
      let p1 := pNextToken p
      let (a1, p2) := parseOneCallArgP fuel p1
      let (args, p3) := parseCallArgsLoop fuel p2 [a1]
      let (ok, p4) := expectPeek tokRPAREN p3
      if ok then (args, p4) else ([], p4)
termination_by structural fuel => fuel

/-- The comma loop of `Parser.parseCallArguments`. -/
def parseCallArgsLoop : Nat → PState → List CallArg → List CallArg × PState
  | 0, p, acc => (acc, p)
  | fuel + 1, p, acc =>
    if p.peekToken.ttype == tokCOMMA then
      let p1 := pNextToken (pNextToken p)
      let (a, p2) := parseOneCallArgP fuel p1
      parseCallArgsLoop fuel p2 (acc ++ [a])
    else (acc, p)
termination_by structural fuel => fuel

/-- `Parser.parseIndexExpression`. -/
def parseIndexExpressionP : Nat → Expr → PState → Option Expr × PState
  | 0, left, p => (some left, p)
  | fuel + 1, left, p =>
    let p1 := pNextToken p
    let (idx, p2) := parseExpression fuel precLowest p1
    let (ok, p3) := expectPeek tokRBRACKET p2
    if ok then (some (.indexE left idx), p3) else (some .nilE, p3)
termination_by structural fuel => fuel

/-- `Parser.parseArrayLiteral`. -/
def parseArrayLiteralP : Nat → PState → Option Expr × PState
  | 0, p => (some .nilE, p)
  | fuel + 1, p =>
    let (elems, p1) := parseExpressionListP fuel tokRBRACKET p
    (some (.arrayLit elems), p1)
termination_by structural fuel => fuel

/-- `Parser.parseExpressionList`; a missing end token yields the Go nil
slice (empty list) after recording the diagnostic. -/
def parseExpressionListP : Nat → String → PState → List Expr × PState
  | 0, _, p => ([], p)
  | fuel + 1, endT, p =>
    if p.peekToken.ttype == endT then ([], pNextToken p)
    else
      let p1 := pNextToken p
      let (e1, p2) := parseExpression fuel precLowest p1
      let (elems, p3) := parseExprListLoop fuel p2 [e1]
      let (ok, p4) := expectPeek endT p3
      if ok then (elems, p4) else ([], p4)
termination_by structural fuel => fuel

/-- The comma loop of `Parser.parseExpressionList`. -/
def parseExprListLoop : Nat → PState → List Expr → List Expr × PState
  | 0, p, acc => (acc, p)
  | fuel + 1, p, acc =>
    if p.peekToken.ttype == tokCOMMA then
      let p1 := pNextToken (pNextToken p)
      let (e, p2) := parseExpression fuel precLowest p1
      parseExprListLoop fuel p2 (acc ++ [e])
    else (acc, p)
termination_by structural fuel => fuel

/-- `Parser.parseMapLiteral`: entry pairs until the closing brace,
newlines and trailing commas tolerated; a missing `:` aborts the
literal (nil node). -/
def parseMapLiteralP : Nat → PState → Option Expr × PState
  | 0, p => (some .nilE, p)
  | fuel + 1, p =>
    match parseMapPairsLoop fuel p [] with
    | (none, p1) => (some .nilE, p1)
    | (some pairs, p1) =>
      let (ok, p2) := expectPeek tokRBRACE p1
      if ok then (some (.mapLit pairs), p2) else (some .nilE, p2)
termination_by structural fuel => fuel

/-- The entry loop of `Parser.parseMapLiteral` (`none` renders the Go
`return nil` on a missing `:`). -/
def parseMapPairsLoop : Nat → PState → List (Expr × Expr) →
    Option (List (Expr × Expr)) × PState
  | 0, p, acc => (some acc, p)
  | fuel + 1, p, acc =>
    if p.peekToken.ttype == tokRBRACE then (some acc, p)
    else
      let p1 := pNextToken p
      let p2 := skipCurNewlines (p1.lex.input.length + 3) p1
      if p2.curToken.ttype == tokRBRACE then (some acc, p2)
      else
        let (key, p3) := parseExpression fuel precLowest p2
        let (ok, p4) := expectPeek tokCOLON p3
        if !ok then (none, p4)
        else
          let p5 := pNextToken p4
          let (value, p6) := parseExpression fuel precLowest p5
          let p7 := skipPeekCommaNewlines (p6.lex.input.length + 3) p6
          parseMapPairsLoop fuel p7 (acc ++ [(key, value)])
termination_by structural fuel => fuel

/-- `Parser.parseStringParts`: scan the (escape-processed) literal text
for `{…}` spans with the balanced-brace scan `findBalanced`; each
balanced span's inner text is parsed as a fresh, independent program
(its diagnostics discarded) and only a first statement that is an
expression statement contributes a part; an unbalanced `{` becomes
literal text of one character; runs without `{` become literal-text
parts. -/
def parseStringPartsGo : Nat → List Char → List StringPart
  | 0, _ => []
  | fuel + 1, cs =>
    match cs with
    | [] => []
    | '{' :: rest =>
      match findBalanced rest 1 [] with
      | some (inner, after) =>
        let pIn := newParser (String.mk inner)
        let (stmts, _) := parseProgramLoop fuel pIn []
        (match stmts with
         | .exprS e :: _ => [StringPart.expr e]
         | _ => []) ++ parseStringPartsGo fuel after
      | none => StringPart.text (String.mk ['{']) :: parseStringPartsGo fuel rest
    | c :: rest =>
      StringPart.text (String.mk ((c :: rest).takeWhile (fun ch => ch ≠ '{'))) ::
        parseStringPartsGo fuel ((c :: rest).dropWhile (fun ch => ch ≠ '{'))
termination_by structural fuel => fuel

end

/-- Program parse entry point (`Parser.ParseProgram`). -/
def parseProgram (fuel : Nat) (p : PState) : List Stmt × PState :=
  parseProgramLoop fuel p []

/-- Spec section 6 `parse(source_text)`: lex and parse a source string,
returning the program and the parser's diagnostics. -/
def parseSource (fuel : Nat) (src : String) : List Stmt × List String :=
  let (stmts, p) := parseProgram fuel (newParser src)
  (stmts, p.errors)

/-- The root environment store of a run: exactly one frame with no
parent (`object.NewEnvironment` for the CLI/REPL top level). -/
def initialStore : EnvStore := [{ table := [], parent := none }]

/-- End-to-end run of a source program, as the CLI layer does it: parse,
refuse to evaluate when any diagnostic was recorded (spec section 7),
else evaluate against a fresh top-level environment.  Fuel 1000 is
ample for every program considered here. -/
def runSource (src : String) : Option Obj :=
  let (stmts, errs) := parseSource 1000 src
  if errs.isEmpty then (evalProgram 1000 stmts 0 initialStore).map (fun p => p.1) else none

/-- Expressions that denote a fixed value in one evaluation step, with
no effect on the environment store: the literal forms of the language
(the pipe claim quantifies over piped *values* through these). -/
def isValueLiteral : Expr → Bool
  | .intLit _ => true
  | .floatLit _ => true
  | .boolLit _ => true
  | .nullLit => true
  | .stringLit _ parts => parts.isEmpty
  | _ => false

/-- The value a literal form denotes. -/
def literalValue : Expr → Obj
  | .intLit v => .integer v
  | .floatLit v => .float v
  | .boolLit b => nativeBoolToBooleanObject b
  | .nullLit => .null
  | .stringLit v _ => .str v
  | _ => .goNil

/-- Erasure of call-site argument names. -/
def stripArgNames (args : List CallArg) : List CallArg :=
  args.map fun ca => .mk "" ca.value

/-- Written from the spec's words for claim C2, independently of the
source's loop: each parameter, in declaration order, takes first a
named argument of the same name, else the next unused positional
argument, else its default expression evaluated against the function's
*defining* environment `fenv`, else Null; no branch rejects a call, so
no parameter is ever required. -/
def specResolveParams : Nat → List FunctionParam → List (String × Obj) → List Obj → Nat →
    Nat → EnvStore → Option EnvStore
  | 0, _, _, _, _, _, _ => none
  | _ + 1, [], _, _, _, _, s => some s
  | fuel + 1, p :: rest, named, pos, fenv, ref, s =>
    match tableGet named p.name, pos, p.dflt with
    | some v, _, _ => specResolveParams fuel rest named pos fenv ref (envSet s ref p.name v)
    | none, v :: ps, _ => specResolveParams fuel rest named ps fenv ref (envSet s ref p.name v)
    | none, [], some de =>
      match evalExpr fuel de fenv s with
      | none => none
      | some (v, s1) => specResolveParams fuel rest named [] fenv ref (envSet s1 ref p.name v)
    | none, [], none => specResolveParams fuel rest named [] fenv ref (envSet s ref p.name .null)
termination_by structural fuel => fuel

set_option maxHeartbeats 3200000 in
/-- Fuel monotonicity of the evaluator, one step at a time: a
computation that completes within some fuel completes, with the same
result, when given one more unit of fuel.  (All sixteen mutually
recursive evaluation functions are covered simultaneously.) -/
theorem evalMonoStep : ∀ n,
  (∀ stmts env s acc r, evalProgramLoop n stmts env s acc = some r →
     evalProgramLoop (n+1) stmts env s acc = some r) ∧
  (∀ stmts env s acc r, evalBlockLoop n stmts env s acc = some r →
     evalBlockLoop (n+1) stmts env s acc = some r) ∧
  (∀ st env s r, evalStmt n st env s = some r → evalStmt (n+1) st env s = some r) ∧
  (∀ v es body env s acc r, evalForLoop n v es body env s acc = some r →
     evalForLoop (n+1) v es body env s acc = some r) ∧
  (∀ c body env s acc r, evalWhileLoop n c body env s acc = some r →
     evalWhileLoop (n+1) c body env s acc = some r) ∧
  (∀ e env s r, evalExpr n e env s = some r → evalExpr (n+1) e env s = some r) ∧
  (∀ l rr env s r, evalPipeExpressionE n l rr env s = some r →
     evalPipeExpressionE (n+1) l rr env s = some r) ∧
  (∀ t v env s r, evalAssignExpressionE n t v env s = some r →
     evalAssignExpressionE (n+1) t v env s = some r) ∧
  (∀ ps env s acc r, evalStringPartsLoop n ps env s acc = some r →
     evalStringPartsLoop (n+1) ps env s acc = some r) ∧
  (∀ es env s acc r, evalExpressionsLoop n es env s acc = some r →
     evalExpressionsLoop (n+1) es env s acc = some r) ∧
  (∀ as env s acc r, evalCallArgumentsLoop n as env s acc = some r →
     evalCallArgumentsLoop (n+1) as env s acc = some r) ∧
  (∀ ps env s acc r, evalMapLiteralLoop n ps env s acc = some r →
     evalMapLiteralLoop (n+1) ps env s acc = some r) ∧
  (∀ as env s acc r, evalPipeArgsLoop n as env s acc = some r →
     evalPipeArgsLoop (n+1) as env s acc = some r) ∧
  (∀ fn args ca s r, applyFunction n fn args ca s = some r →
     applyFunction (n+1) fn args ca s = some r) ∧
  (∀ params fenv args ca s r, extendFunctionEnv n params fenv args ca s = some r →
     extendFunctionEnv (n+1) params fenv args ca s = some r) ∧
  (∀ params na pa fenv ref s r, extendBindLoop n params na pa fenv ref s = some r →
     extendBindLoop (n+1) params na pa fenv ref s = some r) := by
  intro n
  induction n with
  | zero =>
    refine ⟨?_, ?_, ?_, ?_, ?_, ?_, ?_, ?_, ?_, ?_, ?_, ?_, ?_, ?_, ?_, ?_⟩ <;>
      (intros; rename_i h; exact Option.noConfusion h)
  | succ n ih =>
    obtain ⟨ihProg, ihBlock, ihStmt, ihFor, ihWhile, ihExpr, ihPE, ihAE, ihSP, ihEL,
      ihCA, ihML, ihPA, ihAF, ihEF, ihBL⟩ := ih
    refine ⟨?_, ?_, ?_, ?_, ?_, ?_, ?_, ?_, ?_, ?_, ?_, ?_, ?_, ?_, ?_, ?_⟩
    -- evalProgramLoop
    · intro stmts env s acc r h
      cases stmts with
      | nil => exact h
      | cons st rest =>
        simp only [evalProgramLoop] at h ⊢
        split at h
        · exact Option.noConfusion h
        · rename_i r1 s1 heq
          rw [ihStmt _ _ _ _ heq]
          dsimp only
          cases r1 <;> first | exact h | exact ihProg _ _ _ _ _ h
    -- evalBlockLoop
    · intro stmts env s acc r h
      cases stmts with
      | nil => exact h
      | cons st rest =>
        simp only [evalBlockLoop] at h ⊢
        split at h
        · exact Option.noConfusion h
        · rename_i r1 s1 heq
          rw [ihStmt _ _ _ _ heq]
          dsimp only
          split at h
          · rename_i hc; rw [if_pos hc]; exact h
          · rename_i hc; rw [if_neg hc]; exact ihBlock _ _ _ _ _ h
    -- evalStmt
    · intro st env s r h
      cases st with
      | letS name value =>
        simp only [evalStmt] at h ⊢
        split at h
        · exact Option.noConfusion h
        · rename_i val s1 heq
          rw [ihExpr _ _ _ _ heq]
          dsimp only
          exact h
      | returnS value? =>
        cases value? with
        | none => exact h
        | some e =>
          simp only [evalStmt] at h ⊢
          split at h
          · exact Option.noConfusion h
          · rename_i val s1 heq
            rw [ihExpr _ _ _ _ heq]
            dsimp only
            exact h
      | exprS e => exact ihExpr _ _ _ _ h
      | forS v it body =>
        simp only [evalStmt] at h ⊢
        split at h
        · exact Option.noConfusion h
        · rename_i itv s1 heq
          rw [ihExpr _ _ _ _ heq]
          dsimp only
          split at h
          · rename_i hc; rw [if_pos hc]; exact h
          · rename_i hc; rw [if_neg hc]
            cases itv <;> first | exact h | exact ihFor _ _ _ _ _ _ _ h
      | whileS cond body => exact ihWhile _ _ _ _ _ _ h
    -- evalForLoop
    · intro v es body env s acc r h
      cases es with
      | nil => exact h
      | cons el rest =>
        simp only [evalForLoop] at h ⊢
        split at h
        · exact Option.noConfusion h
        · rename_i r1 s3 heq
          rw [ihBlock _ _ _ _ _ heq]
          dsimp only
          split at h
          · rename_i hc; rw [if_pos hc]; exact h
          · rename_i hc; rw [if_neg hc]
            cases r1 <;> first | exact h | exact ihFor _ _ _ _ _ _ _ h
    -- evalWhileLoop
    · intro c body env s acc r h
      simp only [evalWhileLoop] at h ⊢
      split at h
      · exact Option.noConfusion h
      · rename_i cv s1 heq
        rw [ihExpr _ _ _ _ heq]
        dsimp only
        split at h
        · rename_i hc; rw [if_pos hc]; exact h
        · rename_i hc; rw [if_neg hc]
          split at h
          · rename_i hc2; rw [if_pos hc2]; exact h
          · rename_i hc2; rw [if_neg hc2]
            split at h
            · exact Option.noConfusion h
            · rename_i r1 s2 heq2
              rw [ihBlock _ _ _ _ _ heq2]
              dsimp only
              split at h
              · rename_i hc3; rw [if_pos hc3]; exact h
              · rename_i hc3; rw [if_neg hc3]
                cases r1 <;> first | exact h | exact ihWhile _ _ _ _ _ _ h
    -- evalExpr
    · intro e env s r h
      cases e with
      | identE name => exact h
      | intLit v => exact h
      | floatLit v => exact h
      | stringLit value parts =>
        simp only [evalExpr] at h ⊢
        split at h
        · rename_i hc; rw [if_pos hc]; exact h
        · rename_i hc; rw [if_neg hc]; exact ihSP _ _ _ _ _ h
      | boolLit b => exact h
      | nullLit => exact h
      | regexLit pattern => exact h
      | arrayLit elements =>
        simp only [evalExpr] at h ⊢
        split at h
        · exact Option.noConfusion h
        · rename_i elems s1 heq
          rw [ihEL _ _ _ _ _ heq]
          dsimp only
          exact h
      | mapLit pairs => exact ihML _ _ _ _ _ h
      | rangeLit startE stopE =>
        simp only [evalExpr] at h ⊢
        split at h
        · exact Option.noConfusion h
        · rename_i a s1 heq
          rw [ihExpr _ _ _ _ heq]
          dsimp only
          split at h
          · rename_i hc; rw [if_pos hc]; exact h
          · rename_i hc; rw [if_neg hc]
            split at h
            · exact Option.noConfusion h
            · rename_i b s2 heq2
              rw [ihExpr _ _ _ _ heq2]
              dsimp only
              exact h
      | prefixE op right =>
        simp only [evalExpr] at h ⊢
        split at h
        · exact Option.noConfusion h
        · rename_i v s1 heq
          rw [ihExpr _ _ _ _ heq]
          dsimp only
          exact h
      | infixE op l rr =>
        simp only [evalExpr] at h ⊢
        split at h
        · rename_i hop
          rw [if_pos hop]
          split at h
          · exact Option.noConfusion h
          · rename_i lv s1 heq
            rw [ihExpr _ _ _ _ heq]
            dsimp only
            split at h
            · rename_i hc; rw [if_pos hc]; exact h
            · rename_i hc; rw [if_neg hc]
              split at h
              · rename_i hc2; rw [if_pos hc2]
                split at h
                · rename_i hc3; rw [if_pos hc3]; exact h
                · rename_i hc3; rw [if_neg hc3]; exact ihExpr _ _ _ _ h
              · rename_i hc2; rw [if_neg hc2]
                split at h
                · rename_i hc3; rw [if_pos hc3]; exact h
                · rename_i hc3; rw [if_neg hc3]; exact ihExpr _ _ _ _ h
        · rename_i hop
          rw [if_neg hop]
          split at h
          · exact Option.noConfusion h
          · rename_i lv s1 heq
            rw [ihExpr _ _ _ _ heq]
            dsimp only
            split at h
            · rename_i hc; rw [if_pos hc]; exact h
            · rename_i hc; rw [if_neg hc]
              split at h
              · exact Option.noConfusion h
              · rename_i rv s2 heq2
                rw [ihExpr _ _ _ _ heq2]
                dsimp only
                exact h
      | ifE cond consequence alternative =>
        simp only [evalExpr] at h ⊢
        split at h
        · exact Option.noConfusion h
        · rename_i cv s1 heq
          rw [ihExpr _ _ _ _ heq]
          dsimp only
          split at h
          · rename_i hc; rw [if_pos hc]; exact h
          · rename_i hc; rw [if_neg hc]
            split at h
            · rename_i hc2; rw [if_pos hc2]; exact ihBlock _ _ _ _ _ h
            · rename_i hc2; rw [if_neg hc2]
              cases alternative with
              | some alt => exact ihBlock _ _ _ _ _ h
              | none => exact h
      | funcLit name params body => exact h
      | callE fexpr args =>
        simp only [evalExpr] at h ⊢
        split at h
        · exact Option.noConfusion h
        · rename_i f s1 heq
          rw [ihExpr _ _ _ _ heq]
          dsimp only
          split at h
          · rename_i hc; rw [if_pos hc]; exact h
          · rename_i hc; rw [if_neg hc]
            split at h
            · exact Option.noConfusion h
            · rename_i argVals s2 heq2
              rw [ihCA _ _ _ _ _ heq2]
              dsimp only
              split at h
              · rename_i hc2; rw [if_pos hc2]; exact h
              · rename_i hc2; rw [if_neg hc2]; exact ihAF _ _ _ _ _ h
      | indexE le ie =>
        simp only [evalExpr] at h ⊢
        split at h
        · exact Option.noConfusion h
        · rename_i lv s1 heq
          rw [ihExpr _ _ _ _ heq]
          dsimp only
          split at h
          · rename_i hc; rw [if_pos hc]; exact h
          · rename_i hc; rw [if_neg hc]
            split at h
            · exact Option.noConfusion h
            · rename_i iv s2 heq2
              rw [ihExpr _ _ _ _ heq2]
              dsimp only
              exact h
      | pipeE l rr => exact ihPE _ _ _ _ _ h
      | assignE target value => exact ihAE _ _ _ _ _ h
      | nilE => exact h
    -- evalPipeExpressionE
    · intro l rr env s r h
      cases rr
      case callE fexpr args =>
        simp only [evalPipeExpressionE] at h ⊢
        split at h
        · exact Option.noConfusion h
        · rename_i left s1 heq
          rw [ihExpr _ _ _ _ heq]
          dsimp only
          split at h
          · rename_i hc; rw [if_pos hc]; exact h
          · rename_i hc; rw [if_neg hc]
            split at h
            · exact Option.noConfusion h
            · rename_i fn s2 heq2
              rw [ihExpr _ _ _ _ heq2]
              dsimp only
              split at h
              · rename_i hc2; rw [if_pos hc2]; exact h
              · rename_i hc2; rw [if_neg hc2]
                split at h <;>
                  first
                    | exact Option.noConfusion h
                    | (rename_i vv ss heq3;
                       first
                         | (rw [ihPA _ _ _ _ _ heq3]; exact h)
                         | (rw [ihPA _ _ _ _ _ heq3]; exact ihAF _ _ _ _ _ h))
      case identE name =>
        simp only [evalPipeExpressionE] at h ⊢
        split at h
        · exact Option.noConfusion h
        · rename_i left s1 heq
          rw [ihExpr _ _ _ _ heq]
          dsimp only
          split at h
          · rename_i hc; rw [if_pos hc]; exact h
          · rename_i hc; rw [if_neg hc]
            split at h
            · rename_i hc2; rw [if_pos hc2]; exact h
            · rename_i hc2; rw [if_neg hc2]; exact ihAF _ _ _ _ _ h
      all_goals
        (simp only [evalPipeExpressionE] at h ⊢;
         split at h <;>
           first
             | exact Option.noConfusion h
             | (rename_i left s1 heq; rw [ihExpr _ _ _ _ heq]; exact h))
    -- evalAssignExpressionE
    · intro t v env s r h
      cases t
      case identE name =>
        simp only [evalAssignExpressionE] at h ⊢
        split at h
        · exact Option.noConfusion h
        · rename_i val s1 heq
          rw [ihExpr _ _ _ _ heq]
          dsimp only
          exact h
      case indexE le ie =>
        simp only [evalAssignExpressionE] at h ⊢
        split at h
        · exact Option.noConfusion h
        · rename_i val s1 heq
          rw [ihExpr _ _ _ _ heq]
          dsimp only
          split at h
          · rename_i hc; rw [if_pos hc]; exact h
          · rename_i hc; rw [if_neg hc]
            split at h
            · exact Option.noConfusion h
            · rename_i lv s2 heq2
              rw [ihExpr _ _ _ _ heq2]
              dsimp only
              split at h
              · rename_i hc2; rw [if_pos hc2]; exact h
              · rename_i hc2; rw [if_neg hc2]
                split at h
                · exact Option.noConfusion h
                · rename_i iv s3 heq3
                  rw [ihExpr _ _ _ _ heq3]
                  dsimp only
                  exact h
      all_goals
        (simp only [evalAssignExpressionE] at h ⊢;
         split at h <;>
           first
             | exact Option.noConfusion h
             | (rename_i val s1 heq; rw [ihExpr _ _ _ _ heq]; exact h))
    -- evalStringPartsLoop
    · intro ps env s acc r h
      cases ps with
      | nil => exact h
      | cons part rest =>
        cases part with
        | text t => exact ihSP _ _ _ _ _ h
        | expr e =>
          simp only [evalStringPartsLoop] at h ⊢
          split at h
          · exact Option.noConfusion h
          · rename_i v s1 heq
            rw [ihExpr _ _ _ _ heq]
            dsimp only
            split at h
            · rename_i hc; rw [if_pos hc]; exact h
            · rename_i hc; rw [if_neg hc]; exact ihSP _ _ _ _ _ h
    -- evalExpressionsLoop
    · intro es env s acc r h
      cases es with
      | nil => exact h
      | cons e rest =>
        simp only [evalExpressionsLoop] at h ⊢
        split at h
        · exact Option.noConfusion h
        · rename_i v s1 heq
          rw [ihExpr _ _ _ _ heq]
          dsimp only
          split at h
          · rename_i hc; rw [if_pos hc]; exact h
          · rename_i hc; rw [if_neg hc]; exact ihEL _ _ _ _ _ h
    -- evalCallArgumentsLoop
    · intro as env s acc r h
      cases as with
      | nil => exact h
      | cons a rest =>
        simp only [evalCallArgumentsLoop] at h ⊢
        split at h
        · exact Option.noConfusion h
        · rename_i v s1 heq
          rw [ihExpr _ _ _ _ heq]
          dsimp only
          split at h
          · rename_i hc; rw [if_pos hc]; exact h
          · rename_i hc; rw [if_neg hc]; exact ihCA _ _ _ _ _ h
    -- evalMapLiteralLoop
    · intro ps env s acc r h
      cases ps with
      | nil => exact h
      | cons kv rest =>
        obtain ⟨ke, ve⟩ := kv
        simp only [evalMapLiteralLoop] at h ⊢
        split at h
        · exact Option.noConfusion h
        · rename_i k s1 heq
          rw [ihExpr _ _ _ _ heq]
          dsimp only
          split at h
          · rename_i hc; rw [if_pos hc]; exact h
          · rename_i hc; rw [if_neg hc]
            split at h
            · rename_i hhk; exact h
            · rename_i hk hhk
              split at h
              · exact Option.noConfusion h
              · rename_i v s2 heq2
                rw [ihExpr _ _ _ _ heq2]
                dsimp only
                split at h
                · rename_i hc2; rw [if_pos hc2]; exact h
                · rename_i hc2; rw [if_neg hc2]; exact ihML _ _ _ _ _ h
    -- evalPipeArgsLoop
    · intro as env s acc r h
      cases as with
      | nil => exact h
      | cons a rest =>
        simp only [evalPipeArgsLoop] at h ⊢
        split at h
        · exact Option.noConfusion h
        · rename_i v s1 heq
          rw [ihExpr _ _ _ _ heq]
          dsimp only
          split at h
          · rename_i hc; rw [if_pos hc]; exact h
          · rename_i hc; rw [if_neg hc]; exact ihPA _ _ _ _ _ h
    -- applyFunction
    · intro fn args ca s r h
      cases fn
      case function params body fenv name =>
        simp only [applyFunction] at h ⊢
        split at h
        · exact Option.noConfusion h
        · rename_i ref s1 heq
          rw [ihEF _ _ _ _ _ _ heq]
          dsimp only
          split at h
          · exact Option.noConfusion h
          · rename_i r1 s2 heq2
            rw [ihBlock _ _ _ _ _ heq2]
            dsimp only
            exact h
      all_goals exact h
    -- extendFunctionEnv
    · intro params fenv args ca s r h
      simp only [extendFunctionEnv] at h ⊢
      split at h
      · exact Option.noConfusion h
      · rename_i s2 heq
        rw [ihBL _ _ _ _ _ _ _ heq]
        dsimp only
        exact h
    -- extendBindLoop
    · intro params na pa fenv ref s r h
      cases params with
      | nil => exact h
      | cons p rest =>
        simp only [extendBindLoop] at h ⊢
        split at h
        · rename_i v hg
          exact ihBL _ _ _ _ _ _ _ h
        · rename_i hg
          split at h
          · exact ihBL _ _ _ _ _ _ _ h
          · split at h
            · rename_i de hd
              split at h
              · exact Option.noConfusion h
              · rename_i dv s1 heq
                rw [ihExpr _ _ _ _ heq]
                dsimp only
                exact ihBL _ _ _ _ _ _ _ h
            · rename_i hd
              exact ihBL _ _ _ _ _ _ _ h

/-- Fuel monotonicity of `evalExpr`, closed under `≤`. -/
theorem evalExprLe : ∀ {n m : Nat}, n ≤ m → ∀ e env s r,
    evalExpr n e env s = some r → evalExpr m e env s = some r := by
  intro n m h
  induction h with
  | refl => exact fun e env s r hr => hr
  | step _ ih =>
    exact fun e env s r hr => (evalMonoStep _).2.2.2.2.2.1 e env s r (ih e env s r hr)

/-- Fuel monotonicity of `evalCallArgumentsLoop`, closed under `≤`. -/
theorem evalCallArgumentsLoopLe : ∀ {n m : Nat}, n ≤ m → ∀ as env s acc r,
    evalCallArgumentsLoop n as env s acc = some r →
    evalCallArgumentsLoop m as env s acc = some r := by
  intro n m h
  induction h with
  | refl => exact fun as env s acc r hr => hr
  | step _ ih =>
    exact fun as env s acc r hr =>
      (evalMonoStep _).2.2.2.2.2.2.2.2.2.2.1 as env s acc r (ih as env s acc r hr)

/-- Fuel monotonicity of `evalPipeArgsLoop`, closed under `≤`. -/
theorem evalPipeArgsLoopLe : ∀ {n m : Nat}, n ≤ m → ∀ as env s acc r,
    evalPipeArgsLoop n as env s acc = some r → evalPipeArgsLoop m as env s acc = some r := by
  intro n m h
  induction h with
  | refl => exact fun as env s acc r hr => hr
  | step _ ih =>
    exact fun as env s acc r hr =>
      (evalMonoStep _).2.2.2.2.2.2.2.2.2.2.2.2.1 as env s acc r (ih as env s acc r hr)

/-- Fuel monotonicity of `applyFunction`, closed under `≤`. -/
theorem applyFunctionLe : ∀ {n m : Nat}, n ≤ m → ∀ fn args ca s r,
    applyFunction n fn args ca s = some r → applyFunction m fn args ca s = some r := by
  intro n m h
  induction h with
  | refl => exact fun fn args ca s r hr => hr
  | step _ ih =>
    exact fun fn args ca s r hr =>
      (evalMonoStep _).2.2.2.2.2.2.2.2.2.2.2.2.2.1 fn args ca s r (ih fn args ca s r hr)

/-- A literal form evaluates, at any positive fuel, to its value with
the store untouched. -/
theorem evalExprLiteral : ∀ a, isValueLiteral a = true →
    ∀ fuel env s, evalExpr (fuel + 1) a env s = some (literalValue a, s) := by
  intro a h fuel env s
  cases a <;> first
    | rfl
    | exact Bool.noConfusion h
    | (simp only [isValueLiteral] at h
       simp only [evalExpr, literalValue]
       rw [if_pos h])

/-- A literal value is never an Error object. -/
theorem literalValueNotError : ∀ a, isValueLiteral a = true →
    isError (literalValue a) = false := by
  intro a h
  cases a <;> first
    | rfl
    | exact Bool.noConfusion h
    | (rename_i b; cases b <;> rfl)

/-- An assignment to a name bound nowhere on the scope chain leaves the
store untouched and reports failure (`Environment.Update`). -/
theorem envUpdateAuxUnbound : ∀ fuel s ref name v,
    envBoundAux fuel s ref name = false →
    envUpdateAux fuel s ref name v = (false, s) := by
  intro fuel
  induction fuel with
  | zero => intro s ref name v h; rfl
  | succ n ih =>
    intro s ref name v h
    simp only [envBoundAux] at h
    simp only [envUpdateAux]
    cases hg : s[ref]? with
    | none => rfl
    | some fr =>
      rw [hg] at h
      dsimp only at h ⊢
      by_cases ht : (tableGet fr.table name).isSome = true
      · rw [if_pos ht] at h; exact Bool.noConfusion h
      · rw [if_neg ht] at h ⊢
        cases hp : fr.parent with
        | none => rfl
        | some p => rw [hp] at h; exact ih s p name v h

/-- `Environment.Update` on an unbound name: failure, store unchanged. -/
theorem envUpdateUnbound : ∀ s ref name v, envBound s ref name = false →
    envUpdate s ref name v = (false, s) := by
  intro s ref name v h
  exact envUpdateAuxUnbound s.length s ref name v h

/-- The dedup walk of `unique` is idempotent for any starting `seen`
set: its output contains no element whose display form is in `seen` or
repeated, so a second walk keeps everything. -/
theorem uniqueGoIdem : ∀ (xs : List Obj) (seen : List String),
    uniqueGo seen (uniqueGo seen xs) = uniqueGo seen xs := by
  intro xs
  induction xs with
  | nil => intro seen; rfl
  | cons x rest ih =>
    intro seen
    simp only [uniqueGo]
    by_cases hc : seen.contains x.inspect = true
    · rw [if_pos hc]
      exact ih seen
    · rw [if_neg hc]
      simp only [uniqueGo]
      rw [if_neg hc]
      rw [ih (x.inspect :: seen)]

/-- The argument loop inlined in `evalPipeExpression` versus the shared
`evalCallArguments` loop, at equal fuel: they agree step by step, the
only difference being how the first Error is delivered (directly
versus as a singleton list); a successful pipe loop extends its
accumulator. -/
theorem pipeCallArgsRel : ∀ fuel args env s acc,
    (evalPipeArgsLoop fuel args env s acc = none ∧
       evalCallArgumentsLoop fuel args env s acc = none) ∨
    (∃ vs s1, evalPipeArgsLoop fuel args env s acc = some (.inl vs, s1) ∧
       evalCallArgumentsLoop fuel args env s acc = some (vs, s1) ∧
       ∃ extra, vs = acc ++ extra) ∨
    (∃ e s1, isError e = true ∧
       evalPipeArgsLoop fuel args env s acc = some (.inr e, s1) ∧
       evalCallArgumentsLoop fuel args env s acc = some ([e], s1)) := by
  intro fuel
  induction fuel with
  | zero => intro args env s acc; exact Or.inl ⟨rfl, rfl⟩
  | succ n ih =>
    intro args env s acc
    cases args with
    | nil => exact Or.inr (Or.inl ⟨acc, s, rfl, rfl, [], by simp⟩)
    | cons a rest =>
      simp only [evalPipeArgsLoop, evalCallArgumentsLoop]
      cases hv : evalExpr n a.value env s with
      | none => exact Or.inl ⟨rfl, rfl⟩
      | some p =>
        obtain ⟨v, s1⟩ := p
        dsimp only
        by_cases he : isError v = true
        · rw [if_pos he, if_pos he]
          exact Or.inr (Or.inr ⟨v, s1, he, rfl, rfl⟩)
        · rw [if_neg he, if_neg he]
          rcases ih rest env s1 (acc ++ [v]) with
            ⟨h1, h2⟩ | ⟨vs, s2, h1, h2, extra, hvs⟩ | ⟨e, s2, herr, h1, h2⟩
          · exact Or.inl ⟨h1, h2⟩
          · exact Or.inr (Or.inl ⟨vs, s2, h1, h2, v :: extra, by simp [hvs]⟩)
          · exact Or.inr (Or.inr ⟨e, s2, herr, h1, h2⟩)

/-- When every call-site argument is unnamed, the named/positional
partition puts everything in the positional list, exactly as when no
call-site syntax is available at all. -/
theorem partitionCallArgsLoopNoNames : ∀ (args : List Obj) (cas : List CallArg),
    (∀ ca ∈ cas, ca.name = "") → ∀ i named pos,
    partitionCallArgsLoop args (some cas) i named pos =
      partitionCallArgsLoop args none i named pos := by
  intro args
  induction args with
  | nil => intro cas h i named pos; rfl
  | cons a rest ih =>
    intro cas h i named pos
    simp only [partitionCallArgsLoop]
    have hnm : (match cas[i]? with | some ca => ca.name | none => "") = "" := by
      cases hg : cas[i]? with
      | none => rfl
      | some ca => exact h ca (List.getElem?_mem hg)
    rw [hnm]
    rw [if_neg (fun hne => hne rfl), if_neg (fun hne => hne rfl)]
    exact ih cas h (i + 1) named (pos ++ [a])

/-- `extendFunctionEnv` with all-unnamed call-site syntax binds exactly
as with no call-site syntax. -/
theorem extendFunctionEnvNoNames : ∀ fuel params fenv args cas s,
    (∀ ca ∈ cas, ca.name = "") →
    extendFunctionEnv fuel params fenv args (some cas) s =
      extendFunctionEnv fuel params fenv args none s := by
  intro fuel params fenv args cas s h
  cases fuel with
  | zero => rfl
  | succ n =>
    simp only [extendFunctionEnv]
    rw [partitionCallArgsLoopNoNames args cas h]

/-- `applyFunction` with all-unnamed call-site syntax behaves exactly
as with no call-site syntax. -/
theorem applyFunctionNoNames : ∀ fuel fn args cas s,
    (∀ ca ∈ cas, ca.name = "") →
    applyFunction fuel fn args (some cas) s = applyFunction fuel fn args none s := by
  intro fuel fn args cas s h
  cases fuel with
  | zero => rfl
  | succ n =>
    cases fn with
    | function params body fenv nm =>
      simp only [applyFunction]
      rw [extendFunctionEnvNoNames n params fenv args cas s h]
    | builtin nm => rfl
    | integer v => rfl
    | float v => rfl
    | str v => rfl
    | boolean v => rfl
    | null => rfl
    | array es => rfl
    | mapO ps => rfl
    | rangeO a b => rfl
    | regex p m => rfl
    | returnValue v => rfl
    | error m => rfl
    | goNil => rfl

/-- The pipe argument loop evaluates only argument values; names are
irrelevant to it. -/
theorem evalPipeArgsLoopStripNames : ∀ fuel args env s acc,
    evalPipeArgsLoop fuel (stripArgNames args) env s acc =
      evalPipeArgsLoop fuel args env s acc := by
  intro fuel
  induction fuel with
  | zero => intro args env s acc; rfl
  | succ n ih =>
    intro args env s acc
    cases args with
    | nil => rfl
    | cons a rest =>
      obtain ⟨nm, av⟩ := a
      simp only [stripArgNames, List.map_cons]
      simp only [evalPipeArgsLoop]
      dsimp only [CallArg.value]
      cases hv : evalExpr n av env s with
      | none => rfl
      | some p =>
        obtain ⟨v, s1⟩ := p
        dsimp only
        by_cases he : isError v = true
        · rw [if_pos he, if_pos he]
        · rw [if_neg he, if_neg he]
          exact ih rest env s1 (acc ++ [v])

/-- A successful pipe into a call runs identically as the call with the
piped value prepended as an unnamed first argument, at the same fuel. -/
theorem pipeCallRunFwd : ∀ fuel a ef args env s r,
    isValueLiteral a = true →
    (∀ ca ∈ args, ca.name = "") →
    evalExpr fuel (.pipeE a (.callE ef args)) env s = some r →
    evalExpr fuel (.callE ef (.mk "" a :: args)) env s = some r := by
  intro fuel a ef args env s r hLit hNames h
  have hLVfalse : isError (literalValue a) = false := literalValueNotError a hLit
  have hNE : ¬ (isError (literalValue a) = true) := by
    rw [hLVfalse]; exact Bool.false_ne_true
  have hAll : ∀ ca ∈ (CallArg.mk "" a :: args), ca.name = "" := by
    intro ca hca
    cases hca with
    | head => rfl
    | tail _ hmem => exact hNames ca hmem
  cases fuel with
  | zero => exact Option.noConfusion h
  | succ m =>
    simp only [evalExpr] at h
    cases m with
    | zero => exact Option.noConfusion h
    | succ k =>
      simp only [evalPipeExpressionE] at h
      cases k with
      | zero =>
        simp only [evalExpr] at h
        exact Option.noConfusion h
      | succ j =>
        rw [evalExprLiteral a hLit j env s] at h
        dsimp only at h
        rw [if_neg hNE] at h
        simp only [evalExpr]
        cases hEF : evalExpr (j + 1) ef env s with
        | none => rw [hEF] at h; exact Option.noConfusion h
        | some pf =>
          obtain ⟨fn, s2⟩ := pf
          rw [hEF] at h
          dsimp only at h
          have hEF1 : evalExpr (j + 1 + 1) ef env s = some (fn, s2) :=
            (evalMonoStep (j + 1)).2.2.2.2.2.1 ef env s (fn, s2) hEF
          rw [hEF1]
          dsimp only
          by_cases hfe : isError fn = true
          · rw [if_pos hfe] at h ⊢
            exact h
          · rw [if_neg hfe] at h ⊢
            simp only [evalCallArgumentsLoop]
            dsimp only [CallArg.value]
            rw [evalExprLiteral a hLit j env s2]
            dsimp only
            rw [if_neg hNE]
            simp only [List.nil_append]
            rcases pipeCallArgsRel (j + 1) args env s2 [literalValue a] with
              ⟨hp, hc⟩ | ⟨vs, s3, hp, hc, extra, hvs⟩ | ⟨e, s3, herr, hp, hc⟩
            · rw [hp] at h
              exact Option.noConfusion h
            · rw [hp] at h
              dsimp only at h
              rw [hc]
              dsimp only
              subst hvs
              have hcond : ((([literalValue a] ++ extra).length == 1 &&
                  isError (([literalValue a] ++ extra).headD Obj.goNil))) = false := by
                simp only [List.singleton_append, List.headD_cons]
                rw [hLVfalse, Bool.and_false]
              rw [hcond]
              rw [if_neg (fun hcc => Bool.noConfusion hcc)]
              rw [applyFunctionNoNames (j + 1 + 1) fn ([literalValue a] ++ extra)
                (CallArg.mk "" a :: args) s3 hAll]
              exact (evalMonoStep (j + 1)).2.2.2.2.2.2.2.2.2.2.2.2.2.1 fn
                ([literalValue a] ++ extra) none s3 r h
            · rw [hp] at h
              dsimp only at h
              rw [hc]
              dsimp only
              have hcond : (([e].length == 1 && isError ([e].headD Obj.goNil))) = true := by
                simp only [List.length_singleton, List.headD_cons]
                rw [herr, Bool.and_true]
                rfl
              rw [hcond]
              rw [if_pos rfl]
              exact h

/-- A successful call with an unnamed literal first argument runs
identically as the pipe of that literal into the call on the remaining
arguments, at one more unit of fuel. -/
theorem pipeCallRunBwd : ∀ fuel a ef args env s r,
    isValueLiteral a = true →
    (∀ ca ∈ args, ca.name = "") →
    evalExpr fuel (.callE ef (.mk "" a :: args)) env s = some r →
    evalExpr (fuel + 1) (.pipeE a (.callE ef args)) env s = some r := by
  intro fuel a ef args env s r hLit hNames h
  have hLVfalse : isError (literalValue a) = false := literalValueNotError a hLit
  have hNE : ¬ (isError (literalValue a) = true) := by
    rw [hLVfalse]; exact Bool.false_ne_true
  have hAll : ∀ ca ∈ (CallArg.mk "" a :: args), ca.name = "" := by
    intro ca hca
    cases hca with
    | head => rfl
    | tail _ hmem => exact hNames ca hmem
  cases fuel with
  | zero => exact Option.noConfusion h
  | succ m =>
    simp only [evalExpr] at h
    simp only [evalExpr, evalPipeExpressionE]
    cases m with
    | zero =>
      simp only [evalExpr] at h
      exact Option.noConfusion h
    | succ j =>
      cases hEF : evalExpr (j + 1) ef env s with
      | none => rw [hEF] at h; exact Option.noConfusion h
      | some pf =>
        obtain ⟨fn, s2⟩ := pf
        rw [hEF] at h
        dsimp only at h
        rw [evalExprLiteral a hLit j env s]
        dsimp only
        rw [if_neg hNE]
        rw [hEF]
        dsimp only
        by_cases hfe : isError fn = true
        · rw [if_pos hfe] at h ⊢
          exact h
        · rw [if_neg hfe] at h ⊢
          simp only [evalCallArgumentsLoop] at h
          dsimp only [CallArg.value] at h
          cases j with
          | zero =>
            simp only [evalExpr] at h
            exact Option.noConfusion h
          | succ i =>
            rw [evalExprLiteral a hLit i env s2] at h
            dsimp only at h
            rw [if_neg hNE] at h
            simp only [List.nil_append] at h
            rcases pipeCallArgsRel (i + 1) args env s2 [literalValue a] with
              ⟨hp, hc⟩ | ⟨vs, s3, hp, hc, extra, hvs⟩ | ⟨e, s3, herr, hp, hc⟩
            · rw [hc] at h
              exact Option.noConfusion h
            · rw [hc] at h
              dsimp only at h
              subst hvs
              have hcond : ((([literalValue a] ++ extra).length == 1 &&
                  isError (([literalValue a] ++ extra).headD Obj.goNil))) = false := by
                simp only [List.singleton_append, List.headD_cons]
                rw [hLVfalse, Bool.and_false]
              rw [hcond] at h
              rw [if_neg (fun hcc => Bool.noConfusion hcc)] at h
              rw [applyFunctionNoNames (i + 1 + 1) fn ([literalValue a] ++ extra)
                (CallArg.mk "" a :: args) s3 hAll] at h
              have hp1 : evalPipeArgsLoop (i + 1 + 1) args env s2 [literalValue a] =
                  some (.inl ([literalValue a] ++ extra), s3) :=
                (evalMonoStep (i + 1)).2.2.2.2.2.2.2.2.2.2.2.2.1 args env s2
                  [literalValue a] (.inl ([literalValue a] ++ extra), s3) hp
              rw [hp1]
              dsimp only
              exact h
            · rw [hc] at h
              dsimp only at h
              have hcond : (([e].length == 1 && isError ([e].headD Obj.goNil))) = true := by
                simp only [List.length_singleton, List.headD_cons]
                rw [herr, Bool.and_true]
                rfl
              rw [hcond] at h
              rw [if_pos rfl] at h
              have hp1 : evalPipeArgsLoop (i + 1 + 1) args env s2 [literalValue a] =
                  some (.inr e, s3) :=
                (evalMonoStep (i + 1)).2.2.2.2.2.2.2.2.2.2.2.2.1 args env s2
                  [literalValue a] (.inr e, s3) hp
              rw [hp1]
              dsimp only
              exact h

/-- A successful pipe into a bare identifier runs identically as the
one-argument call of that identifier, at the same fuel. -/
theorem pipeIdentRunFwd : ∀ fuel a g env s r,
    isValueLiteral a = true →
    evalExpr fuel (.pipeE a (.identE g)) env s = some r →
    evalExpr fuel (.callE (.identE g) [.mk "" a]) env s = some r := by
  intro fuel a g env s r hLit h
  have hLVfalse : isError (literalValue a) = false := literalValueNotError a hLit
  have hNE : ¬ (isError (literalValue a) = true) := by
    rw [hLVfalse]; exact Bool.false_ne_true
  have hAll : ∀ ca ∈ [CallArg.mk "" a], ca.name = "" := by
    intro ca hca
    cases hca with
    | head => rfl
    | tail _ hmem => exact absurd hmem (List.not_mem_nil ca)
  cases fuel with
  | zero => exact Option.noConfusion h
  | succ m =>
    simp only [evalExpr] at h
    cases m with
    | zero => exact Option.noConfusion h
    | succ k =>
      simp only [evalPipeExpressionE] at h
      cases k with
      | zero =>
        simp only [evalExpr] at h
        exact Option.noConfusion h
      | succ j =>
        rw [evalExprLiteral a hLit j env s] at h
        dsimp only at h
        rw [if_neg hNE] at h
        simp only [evalExpr]
        by_cases hfe : isError (evalIdentifier g env s) = true
        · rw [if_pos hfe] at h ⊢
          exact h
        · rw [if_neg hfe] at h ⊢
          simp only [evalCallArgumentsLoop]
          dsimp only [CallArg.value]
          rw [evalExprLiteral a hLit j env s]
          dsimp only
          rw [if_neg hNE]
          simp only [List.nil_append]
          have hcond : (([literalValue a].length == 1 &&
              isError ([literalValue a].headD Obj.goNil))) = false := by
            simp only [List.headD_cons]
            rw [hLVfalse, Bool.and_false]
          rw [hcond]
          rw [if_neg (fun hcc => Bool.noConfusion hcc)]
          rw [applyFunctionNoNames (j + 1 + 1) (evalIdentifier g env s) [literalValue a]
            [CallArg.mk "" a] s hAll]
          exact (evalMonoStep (j + 1)).2.2.2.2.2.2.2.2.2.2.2.2.2.1 (evalIdentifier g env s)
            [literalValue a] none s r h

/-- A successful one-argument call of an identifier on an unnamed
literal runs identically as the pipe of that literal into the bare
identifier, at one more unit of fuel. -/
theorem pipeIdentRunBwd : ∀ fuel a g env s r,
    isValueLiteral a = true →
    evalExpr fuel (.callE (.identE g) [.mk "" a]) env s = some r →
    evalExpr (fuel + 1) (.pipeE a (.identE g)) env s = some r := by
  intro fuel a g env s r hLit h
  have hLVfalse : isError (literalValue a) = false := literalValueNotError a hLit
  have hNE : ¬ (isError (literalValue a) = true) := by
    rw [hLVfalse]; exact Bool.false_ne_true
  have hAll : ∀ ca ∈ [CallArg.mk "" a], ca.name = "" := by
    intro ca hca
    cases hca with
    | head => rfl
    | tail _ hmem => exact absurd hmem (List.not_mem_nil ca)
  cases fuel with
  | zero => exact Option.noConfusion h
  | succ m =>
    simp only [evalExpr] at h
    simp only [evalExpr, evalPipeExpressionE]
    cases m with
    | zero =>
      simp only [evalExpr] at h
      exact Option.noConfusion h
    | succ j =>
      simp only [evalExpr] at h
      rw [evalExprLiteral a hLit j env s]
      dsimp only
      rw [if_neg hNE]
      by_cases hfe : isError (evalIdentifier g env s) = true
      · rw [if_pos hfe] at h ⊢
        exact h
      · rw [if_neg hfe] at h ⊢
        simp only [evalCallArgumentsLoop] at h
        dsimp only [CallArg.value] at h
        cases j with
        | zero =>
          simp only [evalExpr] at h
          exact Option.noConfusion h
        | succ i =>
          rw [evalExprLiteral a hLit i env s] at h
          dsimp only at h
          rw [if_neg hNE] at h
          simp only [List.nil_append] at h
          simp only [evalCallArgumentsLoop] at h
          have hcond : (([literalValue a].length == 1 &&
              isError ([literalValue a].headD Obj.goNil))) = false := by
            simp only [List.headD_cons]
            rw [hLVfalse, Bool.and_false]
          rw [hcond] at h
          rw [if_neg (fun hcc => Bool.noConfusion hcc)] at h
          rw [applyFunctionNoNames (i + 1 + 1) (evalIdentifier g env s) [literalValue a]
            [CallArg.mk "" a] s hAll] at h
          exact h

/-- The source's parameter loop computes exactly the spec's resolution
order. -/
theorem extendBindLoopSpec : ∀ fuel params named pos fenv ref s,
    extendBindLoop fuel params named pos fenv ref s =
      specResolveParams fuel params named pos fenv ref s := by
  intro fuel
  induction fuel with
  | zero => intro params named pos fenv ref s; rfl
  | succ n ih =>
    intro params named pos fenv ref s
    cases params with
    | nil => rfl
    | cons p rest =>
      simp only [extendBindLoop, specResolveParams]
      cases hg : tableGet named p.name with
      | some v => exact ih rest named pos fenv ref (envSet s ref p.name v)
      | none =>
        cases pos with
        | cons v ps => exact ih rest named ps fenv ref (envSet s ref p.name v)
        | nil =>
          cases hd : p.dflt with
          | some de =>
            dsimp only
            cases he : evalExpr n de fenv s with
            | none => rfl
            | some pr =>
              obtain ⟨v, s1⟩ := pr
              exact ih rest named [] fenv ref (envSet s1 ref p.name v)
          | none => exact ih rest named [] fenv ref (envSet s ref p.name .null)

/-- C1: what the `replace` builtin actually does, settled against the
claim: with a String `old` it replaces only the first instance
(`strings.Replace(s, old, new, 1)`), but with a Regex pattern it uses
`ReplaceAllString` and so replaces *every* match — `replace("a1b2",
/\d/, "_")` evaluates to `"a_b_"`, not `"a_b2"`; `replace_all`
replaces all instances of a String `old`. -/
theorem claimC1_replace_first_vs_all :
    (∀ s old new : String, replaceBuiltin [.str s, .str old, .str new] =
       .str (goStringsReplace s old new 1)) ∧
    (∀ (s : String) (pat : String) (find : String → Option (Nat × Nat)) (new : String),
       replaceBuiltin [.str s, .regex pat find, .str new] =
         .str (goRegexpReplaceAllString find s new)) ∧
    (∀ s old new : String, replaceAllBuiltin [.str s, .str old, .str new] =
       .str (goStringsReplaceAll s old new)) ∧
    replaceBuiltin [.str "a1b2", .regex "\\d" digitFind, .str "_"] = .str "a_b_" ∧
    replaceBuiltin [.str "a1b2", .str "1", .str "_"] = .str "a_b2" ∧
    replaceAllBuiltin [.str "a1b1c1", .str "1", .str "_"] = .str "a_b_c_" ∧
    runSource "replace(\"a1b2\", \"1\", \"_\")" = some (.str "a_b2") ∧
    runSource "replace_all(\"a1b1c1\", \"1\", \"_\")" = some (.str "a_b_c_") :=
  ⟨fun _ _ _ => rfl, fun _ _ _ _ => rfl, fun _ _ _ => rfl,
   rfl, rfl, rfl, rfl, rfl⟩

/-- C1 counterexample: with a regex pattern `replace` does not stop at
the first match — on `"a1b2"` with the digit regex both digits are
replaced, so the result differs from the claimed `"a_b2"`. -/
theorem claimC1_counterexample :
    replaceBuiltin [.str "a1b2", .regex "\\d" digitFind, .str "_"] = .str "a_b_" ∧
    Obj.str "a_b_" ≠ Obj.str "a_b2" :=
  ⟨rfl, by intro h; injection h with h2; exact absurd h2 (by decide)⟩

/-- C2: the source's parameter loop binds each parameter, in
declaration order, by first taking a named argument of the same name,
else the next unused positional argument, else the default expression
evaluated in the function's defining environment, else Null — exactly
the spec-worded resolution `specResolveParams`, which has no rejecting
branch (no parameter is required).  The `greet` examples bind as the
claim states, and a default reads the defining scope, not the caller's. -/
theorem claimC2_parameter_binding :
    (∀ fuel params named pos fenv ref s,
       extendBindLoop fuel params named pos fenv ref s =
         specResolveParams fuel params named pos fenv ref s) ∧
    runSource "fn greet(name, loud = false) \x7b [name, loud] \x7d\ngreet(\"a\")" =
      some (.array [.str "a", .boolean false]) ∧
    runSource "fn greet(name, loud = false) \x7b [name, loud] \x7d\ngreet(\"a\", loud = true)" =
      some (.array [.str "a", .boolean true]) ∧
    runSource "fn greet(name, loud = false) \x7b [name, loud] \x7d\ngreet(loud = true, name = \"a\")" =
      some (.array [.str "a", .boolean true]) ∧
    runSource "let d = 1\nfn f(x = d) \x7b x \x7d\nfn run() \x7b\nlet d = 2\nf()\n\x7d\nrun()" =
      some (.integer 1) :=
  ⟨extendBindLoopSpec, rfl, rfl, rfl, rfl⟩

/-- C3: piping a value into a call evaluates exactly as the call with
the piped value prepended as first (positional) argument, and piping
into a bare identifier evaluates as the one-argument call; chained
pipes parse left-associatively, so `x |> f() |> g()` is `g(f(x))`,
confirmed end to end. -/
theorem claimC3_pipe_call_equivalence :
    (∀ a ef args env s r, isValueLiteral a = true → (∀ ca ∈ args, ca.name = "") →
       ((∃ fuel, evalExpr fuel (.pipeE a (.callE ef args)) env s = some r) ↔
        (∃ fuel, evalExpr fuel (.callE ef (.mk "" a :: args)) env s = some r))) ∧
    (∀ a g env s r, isValueLiteral a = true →
       ((∃ fuel, evalExpr fuel (.pipeE a (.identE g)) env s = some r) ↔
        (∃ fuel, evalExpr fuel (.callE (.identE g) [.mk "" a]) env s = some r))) ∧
    parseSource 1000 "x |> f() |> g()" =
      ([.exprS (.pipeE (.pipeE (.identE "x") (.callE (.identE "f") []))
         (.callE (.identE "g") []))], []) ∧
    runSource "let f = fn(a) \x7b a + 1 \x7d\nlet g = fn(a) \x7b a * 2 \x7d\nlet x = 3\nx |> f() |> g()" =
      some (.integer 8) := by
  refine ⟨?_, ?_, rfl, rfl⟩
  · intro a ef args env s r hLit hNames
    constructor
    · rintro ⟨fuel, hrun⟩
      exact ⟨fuel, pipeCallRunFwd fuel a ef args env s r hLit hNames hrun⟩
    · rintro ⟨fuel, hrun⟩
      exact ⟨fuel + 1, pipeCallRunBwd fuel a ef args env s r hLit hNames hrun⟩
  · intro a g env s r hLit
    constructor
    · rintro ⟨fuel, hrun⟩
      exact ⟨fuel, pipeIdentRunFwd fuel a g env s r hLit hrun⟩
    · rintro ⟨fuel, hrun⟩
      exact ⟨fuel + 1, pipeIdentRunBwd fuel a g env s r hLit hrun⟩

/-- C3 witness: the pipe/call equivalence applied at the literal `3`
piped into the unbound identifier `f` in a fresh store (both runs
produce the undefined-variable error). -/
theorem claimC3_witness :
    evalExpr 3 (.pipeE (.intLit 3) (.callE (.identE "f") [])) 0 initialStore =
      some (newError "undefined variable: f", initialStore) ∧
    ((∃ fuel, evalExpr fuel (.pipeE (.intLit 3) (.callE (.identE "f") [])) 0 initialStore =
        some (newError "undefined variable: f", initialStore)) ↔
     (∃ fuel, evalExpr fuel (.callE (.identE "f") [.mk "" (.intLit 3)]) 0 initialStore =
        some (newError "undefined variable: f", initialStore))) :=
  ⟨rfl, claimC3_pipe_call_equivalence.1 (.intLit 3) (.identE "f") [] 0 initialStore
     (newError "undefined variable: f", initialStore) rfl
     (fun ca hca => absurd hca (List.not_mem_nil ca))⟩

/-- C4: the infix operators defined on two Strings are exactly `++`,
`==`, `!=`, `<` and `>`; any other operator — including `<=` and `>=`,
which the claim lists as supported — produces an unknown-operator
Error. -/
theorem claimC4_string_operators :
    (∀ a b : String,
       evalStringInfixExpression "++" (.str a) (.str b) = .str (a ++ b) ∧
       evalStringInfixExpression "==" (.str a) (.str b) = nativeBoolToBooleanObject (a == b) ∧
       evalStringInfixExpression "!=" (.str a) (.str b) = nativeBoolToBooleanObject (a != b) ∧
       evalStringInfixExpression "<" (.str a) (.str b) =
         nativeBoolToBooleanObject (decide (a < b)) ∧
       evalStringInfixExpression ">" (.str a) (.str b) =
         nativeBoolToBooleanObject (decide (b < a))) ∧
    (∀ op, op ∉ (["++", "==", "!=", "<", ">"] : List String) → ∀ a b : String,
       evalStringInfixExpression op (.str a) (.str b) =
         newError ("unknown operator: " ++ STRING_OBJ ++ " " ++ op ++ " " ++ STRING_OBJ)) ∧
    evalStringInfixExpression "<=" (.str "a") (.str "b") =
      newError "unknown operator: STRING <= STRING" ∧
    evalStringInfixExpression ">=" (.str "a") (.str "b") =
      newError "unknown operator: STRING >= STRING" ∧
    runSource "\"a\" <= \"b\"" = some (.error "unknown operator: STRING <= STRING") ∧
    runSource "\"bob\" ++ \"cat\"" = some (.str "bobcat") := by
  refine ⟨fun a b => ⟨rfl, rfl, rfl, rfl, rfl⟩, ?_, rfl, rfl, rfl, rfl⟩
  intro op hop a b
  have h1 : ¬ ((op == "++") = true) := fun hc => hop (by rw [eq_of_beq hc]; decide)
  have h2 : ¬ ((op == "==") = true) := fun hc => hop (by rw [eq_of_beq hc]; decide)
  have h3 : ¬ ((op == "!=") = true) := fun hc => hop (by rw [eq_of_beq hc]; decide)
  have h4 : ¬ ((op == "<") = true) := fun hc => hop (by rw [eq_of_beq hc]; decide)
  have h5 : ¬ ((op == ">") = true) := fun hc => hop (by rw [eq_of_beq hc]; decide)
  simp only [evalStringInfixExpression]
  rw [if_neg h1, if_neg h2, if_neg h3, if_neg h4, if_neg h5]
  rfl

/-- C4 witness: the general unknown-operator case applied at `<=`. -/
theorem claimC4_witness :
    ("<=" : String) ∉ (["++", "==", "!=", "<", ">"] : List String) ∧
    evalStringInfixExpression "<=" (.str "x") (.str "y") =
      newError ("unknown operator: " ++ STRING_OBJ ++ " " ++ "<=" ++ " " ++ STRING_OBJ) :=
  ⟨by decide, claimC4_string_operators.2.1 "<=" (by decide) "x" "y"⟩

/-- C4 counterexample: `<=` (and `>=`) on two Strings is an
unknown-operator Error, not a Boolean comparison as the claim states. -/
theorem claimC4_counterexample :
    evalStringInfixExpression "<=" (.str "a") (.str "b") =
      newError "unknown operator: STRING <= STRING" ∧
    (∀ b : Bool, newError "unknown operator: STRING <= STRING" ≠ nativeBoolToBooleanObject b) ∧
    evalStringInfixExpression ">=" (.str "a") (.str "b") =
      newError "unknown operator: STRING >= STRING" :=
  ⟨rfl, fun b h => Obj.noConfusion h, rfl⟩

/-- C5: array (and string) index reads accept negative indices counted
from the end and yield Null — not an Error — for any out-of-range
index; map index reads are an Error for an unhashable key and Null for
an absent key.  Concretely `[1,2,3][-1] == 3`, `[1,2,3][10] == null`,
`{"a":1}["b"] == null`. -/
theorem claimC5_index_reads :
    (∀ (elems : List Obj) (i : Int), i < 0 → 0 ≤ (elems.length : Int) + i →
       evalArrayIndexExpression (.array elems) (.integer i) =
         elems.getD ((elems.length : Int) + i).toNat Obj.null) ∧
    (∀ (elems : List Obj) (i : Int),
       (elems.length : Int) ≤ i ∨ (elems.length : Int) + i < 0 →
       evalArrayIndexExpression (.array elems) (.integer i) = Obj.null) ∧
    (∀ (s : String) (i : Int), i < 0 → 0 ≤ (s.data.length : Int) + i →
       evalStringIndexExpression (.str s) (.integer i) =
         .str (String.mk [s.data.getD ((s.data.length : Int) + i).toNat ' '])) ∧
    (∀ (s : String) (i : Int),
       (s.data.length : Int) ≤ i ∨ (s.data.length : Int) + i < 0 →
       evalStringIndexExpression (.str s) (.integer i) = Obj.null) ∧
    (∀ (pairs : List (HashKey × Obj × Obj)) (index : Obj), hashKeyOf index = none →
       evalMapIndexExpression (.mapO pairs) index =
         newError ("unusable as map key: " ++ index.typeOf)) ∧
    (∀ (pairs : List (HashKey × Obj × Obj)) (index : Obj) (hk : HashKey),
       hashKeyOf index = some hk → mapPairsGet pairs hk = none →
       evalMapIndexExpression (.mapO pairs) index = Obj.null) ∧
    runSource "[1,2,3][-1]" = some (.integer 3) ∧
    runSource "[1,2,3][10]" = some (.null) ∧
    runSource "\"abc\"[-1]" = some (.str "c") ∧
    runSource "\"abc\"[5]" = some (.null) ∧
    runSource "\x7b\"a\":1\x7d[\"b\"]" = some (.null) := by
  refine ⟨?_, ?_, ?_, ?_, ?_, ?_, rfl, rfl, rfl, rfl, rfl⟩
  · intro elems i hneg hin
    simp only [evalArrayIndexExpression]
    rw [if_pos hneg]
    have hc : (decide ((elems.length : Int) + i < 0) ||
        decide ((elems.length : Int) + i > (elems.length : Int) - 1)) = false := by
      simp only [Bool.or_eq_false_iff, decide_eq_false_iff_not]
      omega
    rw [hc]
    rw [if_neg (fun hh => Bool.noConfusion hh)]
  · intro elems i hout
    simp only [evalArrayIndexExpression]
    by_cases hneg : i < 0
    · rw [if_pos hneg]
      have hc : (decide ((elems.length : Int) + i < 0) ||
          decide ((elems.length : Int) + i > (elems.length : Int) - 1)) = true := by
        simp only [Bool.or_eq_true, decide_eq_true_eq]
        omega
      rw [hc]
      rw [if_pos rfl]
    · rw [if_neg hneg]
      have hc : (decide (i < 0) || decide (i > (elems.length : Int) - 1)) = true := by
        simp only [Bool.or_eq_true, decide_eq_true_eq]
        omega
      rw [hc]
      rw [if_pos rfl]
  · intro s i hneg hin
    simp only [evalStringIndexExpression]
    rw [if_pos hneg]
    have hc : (decide ((s.data.length : Int) + i < 0) ||
        decide ((s.data.length : Int) + i > (s.data.length : Int) - 1)) = false := by
      simp only [Bool.or_eq_false_iff, decide_eq_false_iff_not]
      omega
    rw [hc]
    rw [if_neg (fun hh => Bool.noConfusion hh)]
  · intro s i hout
    simp only [evalStringIndexExpression]
    by_cases hneg : i < 0
    · rw [if_pos hneg]
      have hc : (decide ((s.data.length : Int) + i < 0) ||
          decide ((s.data.length : Int) + i > (s.data.length : Int) - 1)) = true := by
        simp only [Bool.or_eq_true, decide_eq_true_eq]
        omega
      rw [hc]
      rw [if_pos rfl]
    · rw [if_neg hneg]
      have hc : (decide (i < 0) || decide (i > (s.data.length : Int) - 1)) = true := by
        simp only [Bool.or_eq_true, decide_eq_true_eq]
        omega
      rw [hc]
      rw [if_pos rfl]
  · intro pairs index hunh
    simp only [evalMapIndexExpression]
    rw [hunh]
  · intro pairs index hk hhk hget
    simp only [evalMapIndexExpression]
    rw [hhk]
    dsimp only
    rw [hget]

/-- C5 witness: negative indexing from the end, out-of-range Null, the
unhashable-key Error and the absent-key Null, each at a concrete
input. -/
theorem claimC5_witness :
    evalArrayIndexExpression (.array [.integer 1, .integer 2, .integer 3]) (.integer (-1)) =
      [Obj.integer 1, Obj.integer 2, Obj.integer 3].getD
        ((([Obj.integer 1, Obj.integer 2, Obj.integer 3].length : Int) + (-1)).toNat) Obj.null ∧
    evalArrayIndexExpression (.array [.integer 1, .integer 2, .integer 3]) (.integer 10) =
      Obj.null ∧
    evalMapIndexExpression (.mapO []) (.array []) =
      newError ("unusable as map key: " ++ (Obj.array []).typeOf) ∧
    evalMapIndexExpression (.mapO []) (.str "b") = Obj.null :=
  ⟨claimC5_index_reads.1 _ (-1) (by decide) (by decide),
   claimC5_index_reads.2.1 _ 10 (Or.inl (by decide)),
   claimC5_index_reads.2.2.2.2.1 [] (.array []) rfl,
   claimC5_index_reads.2.2.2.2.2.1 [] (.str "b") (.strKey "b") rfl rfl⟩

/-- C6: integer division and modulo by zero each evaluate to the
runtime Error "division by zero" (a value, not a trap), and with a
nonzero divisor they are truncated 64-bit division and remainder with
two's-complement wrap-around and no overflow check. -/
theorem claimC6_integer_division :
    (∀ a : Int,
       evalIntegerInfixExpression "/" (.integer a) (.integer 0) =
         newError "division by zero" ∧
       evalIntegerInfixExpression "%" (.integer a) (.integer 0) =
         newError "division by zero") ∧
    (∀ a b : Int, b ≠ 0 →
       evalIntegerInfixExpression "/" (.integer a) (.integer b) =
         .integer (wrap64 (a.tdiv b)) ∧
       evalIntegerInfixExpression "%" (.integer a) (.integer b) =
         .integer (wrap64 (a.tmod b))) ∧
    runSource "5 / 0" = some (.error "division by zero") ∧
    runSource "5 % 0" = some (.error "division by zero") ∧
    runSource "7 / 2" = some (.integer 3) := by
  refine ⟨fun a => ⟨rfl, rfl⟩, ?_, rfl, rfl, rfl⟩
  intro a b hb
  constructor
  · simp only [evalIntegerInfixExpression]
    rw [if_neg (by decide), if_neg (by decide), if_neg (by decide), if_pos (by decide),
      if_neg hb]
  · simp only [evalIntegerInfixExpression]
    rw [if_neg (by decide), if_neg (by decide), if_neg (by decide), if_neg (by decide),
      if_pos (by decide), if_neg hb]

/-- C6 witness: the nonzero-divisor case applied at `22 / 7` and
`22 % 7`. -/
theorem claimC6_witness :
    (7 : Int) ≠ 0 ∧
    evalIntegerInfixExpression "/" (.integer 22) (.integer 7) =
      .integer (wrap64 ((22 : Int).tdiv 7)) ∧
    evalIntegerInfixExpression "%" (.integer 22) (.integer 7) =
      .integer (wrap64 ((22 : Int).tmod 7)) :=
  ⟨by decide, (claimC6_integer_division.2.1 22 7 (by decide)).1,
   (claimC6_integer_division.2.1 22 7 (by decide)).2⟩

/-- C7: the interpolation scanner finds embedded expressions with
balanced-brace depth counting — `"{ {1:2} }"` scans as one embedded
map-literal expression, not terminating at the first inner brace — and
at run time the parts concatenate through the values' display forms:
with `x` bound to `10`, `"x is {x}"` evaluates to `"x is 10"`. -/
theorem claimC7_string_interpolation :
    parseStringPartsGo 1000 ("x is \x7bx\x7d".data) =
      [.text "x is ", .expr (.identE "x")] ∧
    parseStringPartsGo 1000 ("\x7b \x7b1:2\x7d \x7d".data) =
      [.expr (.mapLit [(.intLit 1, .intLit 2)])] ∧
    runSource "let x = 10\n\"x is \x7bx\x7d\"" = some (.str "x is 10") :=
  ⟨rfl, rfl, rfl⟩

/-- C8: the `unique` builtin is idempotent — a second application to
its own result changes nothing, since the first pass keeps exactly one
element per display form. -/
theorem claimC8_unique_idempotent :
    (∀ elems : List Obj,
       uniqueBuiltin [uniqueBuiltin [.array elems]] = uniqueBuiltin [.array elems]) ∧
    runSource "unique(unique([1, 2, 2, 3]))" = runSource "unique([1, 2, 2, 3])" ∧
    runSource "unique([1, 2, 2, 3])" = some (.array [.integer 1, .integer 2, .integer 3]) := by
  refine ⟨?_, rfl, rfl⟩
  intro elems
  have h1 : uniqueBuiltin [.array elems] = .array (uniqueGo [] elems) := rfl
  rw [h1]
  have h2 : uniqueBuiltin [.array (uniqueGo [] elems)] =
      .array (uniqueGo [] (uniqueGo [] elems)) := rfl
  rw [h2, uniqueGoIdem]

/-- C9: a plain assignment `name = value` whose target name is bound
in no enclosing scope evaluates to the undefined-variable Error and
leaves the store exactly as value evaluation left it — no binding is
created, unlike `let`. -/
theorem claimC9_assign_unbound :
    (∀ fuel name value env s val s1,
       evalExpr fuel value env s = some (val, s1) →
       isError val = false →
       envBound s1 env name = false →
       evalAssignExpressionE (fuel + 1) (.identE name) value env s =
         some (newError ("undefined variable: " ++ name), s1)) ∧
    runSource "y = 5" = some (.error "undefined variable: y") ∧
    runSource "let y = 5\ny = 7\ny" = some (.integer 7) := by
  refine ⟨?_, rfl, rfl⟩
  intro fuel name value env s val s1 hv hnv hnb
  simp only [evalAssignExpressionE]
  rw [hv]
  dsimp only
  rw [if_neg (by rw [hnv]; exact Bool.false_ne_true)]
  rw [envUpdateUnbound s1 env name val hnb]
  dsimp only
  rw [if_neg (fun hh => Bool.noConfusion hh)]

/-- C9 witness: assigning `5` to the unbound name `y` in a fresh
store. -/
theorem claimC9_witness :
    evalExpr 1 (.intLit 5) 0 initialStore = some (.integer 5, initialStore) ∧
    isError (.integer 5) = false ∧
    envBound initialStore 0 "y" = false ∧
    evalAssignExpressionE 2 (.identE "y") (.intLit 5) 0 initialStore =
      some (newError "undefined variable: y", initialStore) :=
  ⟨rfl, rfl, rfl,
   claimC9_assign_unbound.1 1 "y" (.intLit 5) 0 initialStore (.integer 5) initialStore
     rfl rfl rfl⟩

/-- C10: in pipe application the call-site argument names are
discarded — the pipe evaluates exactly as with all names erased, so
every argument, including the piped value, binds positionally; a call
written directly with the same named argument binds by name instead. -/
theorem claimC10_pipe_named_args :
    (∀ fuel l ef args env s,
       evalPipeExpressionE fuel l (.callE ef args) env s =
         evalPipeExpressionE fuel l (.callE ef (stripArgNames args)) env s) ∧
    runSource "fn f(a, b) \x7b [a, b] \x7d\n10 |> f(a = 99)" =
      some (.array [.integer 10, .integer 99]) ∧
    runSource "fn f(a, b) \x7b [a, b] \x7d\nf(10, a = 99)" =
      some (.array [.integer 99, .integer 10]) := by
  refine ⟨?_, rfl, rfl⟩
  intro fuel l ef args env s
  cases fuel with
  | zero => rfl
  | succ n => simp only [evalPipeExpressionE, evalPipeArgsLoopStripNames]
